import Mathlib

/-!
Verification development for the asset-optimization engine in
packages/expo-optimize/src/assets.ts.

The TypeScript source is shallowly embedded as executable Lean functions.
Modelling conventions, fixed once here:

* file bytes are `List Nat`; the project file system is an association list
  from path to content (`FSt`); `fs-extra` operations `move`, `unlinkSync`
  and writes are explicit pure operations on it;
* SHA-256 (`crypto.createHash('sha256')`) is modelled as an opaque parameter
  `hashFn : Content -> String` of the run configuration; `calculateHash`
  applies it to the bytes read from a path, exactly as the source hashes the
  result of `readFileSync`;
* the external sharp compressor (`@expo/image-utils`) is modelled by the
  parameters `sharp : Nat -> Content -> Content` (quality, input bytes to
  output bytes, the output living in a temporary directory outside the
  project tree, which is therefore not part of `FSt`) and
  `sharpAvailable : Bool` (the result of `isAvailableAsync`);
* `globby` is modelled by `globMatch : String -> AssetPath -> Bool` (pattern
  matching over the set `projectFiles` of project-relative paths visible to
  glob, i.e. already excluding `node_modules`, `ios`, `android` and the web
  output path, as in `globOptions.ignore`);
* the persisted `.expo-shared/assets.json` file is `Option (List String)`:
  `none` when the file does not exist, otherwise the set of hashes mapped to
  `true` (the value is always `true` when present, so a set suffices);
* file reads are total (`FS.readD` returns `[]` for a missing file); all
  theorems about whole runs carry the hypothesis that discovered files
  exist, which is the domain on which `readFileSync` does not throw, and
  the hypothesis that backup paths are fresh, the domain on which
  `fs-extra` `move` does not fail with EEXIST;
* console output and `pretty-bytes` formatting are not modelled.
-/

/-- Bytes of a file, as in the Buffer returned by readFileSync. -/
abbrev Content := List Nat

/-- A file path (string), as used throughout assets.ts. -/
abbrev AssetPath := String

/-- AssetOptimizationState from assets.ts, `{ [hash: string]: boolean }`.
Every present key is mapped to `true` in the source, so the state is the
set of present hashes, kept as a list. -/
abbrev AssetOptimizationState := List String

/-- Project file system: association list from path to file bytes.  The
first binding for a path is its content. -/
abbrev FSt := List (AssetPath × Content)

namespace FS

/-- Content stored at a path, or none when the file does not exist. -/
def read (fs : FSt) (p : AssetPath) : Option Content :=
  (fs.find? (fun e => decide (e.1 = p))).map (·.2)

/-- Total read: missing files read as `[]`.  Run-level theorems restrict to
inputs on which every discovered file exists, the domain where
readFileSync does not throw. -/
def readD (fs : FSt) (p : AssetPath) : Content :=
  (read fs p).getD []

/-- Delete a path (`unlinkSync`). -/
def remove (fs : FSt) (p : AssetPath) : FSt :=
  fs.filter (fun e => decide (e.1 ≠ p))

/-- Write bytes at a path, replacing any previous content. -/
def write (fs : FSt) (p : AssetPath) (c : Content) : FSt :=
  (p, c) :: remove fs p

/-- Move a file (`fs-extra` move): the content at `src` is rebound to
`dst`.  A missing source is a no-op here; run-level theorems only visit
states where the source exists. -/
def move (fs : FSt) (src dst : AssetPath) : FSt :=
  match read fs src with
  | none => fs
  | some c => write (remove fs src) dst c

end FS

/-- Insert a hash key into the state (`assetInfo[hash] = true`): a no-op
when the key is already present. -/
def insertHash (s : AssetOptimizationState) (h : String) : AssetOptimizationState :=
  if h ∈ s then s else h :: s

/-- Split a character list at the last occurrence of `sep`: returns the
part before the last `sep` and the part after it, or none when `sep` does
not occur. -/
def splitAtLast (sep : Char) : List Char → Option (List Char × List Char)
  | [] => none
  | c :: cs =>
    match splitAtLast sep cs with
    | some (pre, post) => some (c :: pre, post)
    | none => if c = sep then some ([], cs) else none

/-- Result of node `path.parse`, restricted to the fields assets.ts uses. -/
structure PathParts where
  dir : String
  name : String
  ext : String
deriving Repr, DecidableEq

/-- Model of node `path.parse` for the fields dir, name and ext: dir is
everything before the last slash (the root `/` when the last slash is the
first character, empty when there is no slash), ext runs from the last dot
of the basename to its end, except that a basename whose only dot is its
first character (a dotfile such as `.png`) has empty ext and is its own
name. -/
def pathParse (p : String) : PathParts :=
  let dirBase : String × List Char :=
    match splitAtLast '/' p.data with
    | some (pre, b) => (if pre = [] then "/" else String.mk pre, b)
    | none => ("", p.data)
  match splitAtLast '.' dirBase.2 with
  | some (nm, e) =>
    if nm = [] then ⟨dirBase.1, String.mk dirBase.2, ""⟩
    else ⟨dirBase.1, String.mk nm, String.mk ('.' :: e)⟩
  | none => ⟨dirBase.1, String.mk dirBase.2, ""⟩

/-- Model of node `path.join` on the two-argument uses in assets.ts. -/
def pathJoin (dir b : String) : String :=
  if dir = "" then b else if dir = "/" then "/" ++ b else dir ++ "/" ++ b

/-- createNewFilename from assets.ts: insert `.orig` between the name and
the extension of the basename. -/
def createNewFilename (imagePath : String) : String :=
  let pp := pathParse imagePath
  pathJoin pp.dir (pp.name ++ ".orig" ++ pp.ext)

/-- Replace the first occurrence of `pat` in a character list by `rep`,
as the JavaScript `String.prototype.replace` does for a string pattern. -/
def replaceFirstChars (pat rep : List Char) : List Char → List Char
  | [] => []
  | c :: cs =>
    if pat.isPrefixOf (c :: cs) then rep ++ (c :: cs).drop pat.length
    else c :: replaceFirstChars pat rep cs

/-- JavaScript `s.replace(pat, rep)` for a plain string pattern: only the
first occurrence is replaced. -/
def jsReplaceFirst (s pat rep : String) : String :=
  String.mk (replaceFirstChars pat.data rep.data s.data)

/-- JavaScript `toLowerCase`, character by character. -/
def lowerStr (s : String) : String :=
  String.mk (s.data.map Char.toLower)

/-- Boolean suffix test used to model the anchored regular expression. -/
def strEndsWith (s t : String) : Bool :=
  decide (t.data <:+ s.data)

/-- Test of the regular expression `\.(png|jpg|jpeg)$` from filterImages;
it is applied to the lowercased path in the source. -/
def isImageFile (s : String) : Bool :=
  strEndsWith s ".png" || strEndsWith s ".jpg" || strEndsWith s ".jpeg"

/-- Prefixing of a glob-relative file with the project directory, from
filterImages: backtick-interpolation followed by `.replace('//', '/')`,
which replaces only the first occurrence. -/
def withProjectDir (projectDir file : String) : String :=
  jsReplaceFirst (projectDir ++ "/" ++ file) "//" "/"

/-- filterImages from assets.ts: prefix every file with the project
directory and keep those whose lowercased path ends in a supported image
extension. -/
def filterImages (files : List String) (projectDir : String) : List String :=
  let withDirectory := files.map (withProjectDir projectDir)
  withDirectory.filter (fun file => isImageFile (lowerStr file))

/-- calculateHash from assets.ts: the SHA-256 digest (modelled by the
ambient `hashFn`) of the bytes read from the path. -/
def calculateHash (hashFn : Content → String) (fs : FSt) (filePath : AssetPath) : String :=
  hashFn (FS.readD fs filePath)

/-- OptimizationOptions from assets.ts.  The include and exclude glob
patterns keep their meaning but are named includePat and excludePat here;
`save` is a plain Bool since only its truthiness is consulted. -/
structure OptimizationOptions where
  quality : Option Nat := none
  includePat : Option String := none
  excludePat : Option String := none
  save : Bool := false

/-- External collaborators of getAssetFilesAsync: the project directory,
the set of project-relative paths visible to globby under the ignore list,
the assetBundlePatterns of app.json (none when absent), and the glob
pattern matcher itself. -/
structure Env where
  projectDir : String
  projectFiles : List AssetPath
  assetBundlePatterns : Option (List String)
  globMatch : String → AssetPath → Bool

/-- glob.sync over the project with the fixed globOptions of assets.ts. -/
def globSync (env : Env) (pat : String) : List AssetPath :=
  env.projectFiles.filter (fun f => env.globMatch pat f)

/-- Files discovered from assetBundlePatterns (default pattern
`**/*` when app.json supplies none), concatenated per pattern as the
source pushes each glob result into allFiles. -/
def discoveredFiles (env : Env) : List AssetPath :=
  (env.assetBundlePatterns.getD ["**/*"]).flatMap (fun pat => globSync env pat)

/-- getAssetFilesAsync from assets.ts: allFiles are the image files among
the discovered files; selectedFiles additionally apply the include pattern
(a fresh project-wide glob, not a restriction of allFiles) and remove the
files matched by the exclude pattern. -/
def getAssetFilesAsync (env : Env) (options : OptimizationOptions) :
    List String × List String :=
  let allFiles := discoveredFiles env
  let included :=
    match options.includePat with
    | some pat => globSync env pat
    | none => allFiles
  let toExclude :=
    match options.excludePat with
    | some pat => globSync env pat
    | none => []
  let excluded := included.filter (fun file => decide (file ∉ toExclude))
  let filtered :=
    match options.excludePat with
    | some _ => excluded
    | none => included
  (filterImages allFiles env.projectDir, filterImages filtered env.projectDir)

/-- The allFiles component of getAssetFilesAsync. -/
def allFilesOf (env : Env) (options : OptimizationOptions) : List String :=
  (getAssetFilesAsync env options).1

/-- The selectedFiles component of getAssetFilesAsync. -/
def selectedOf (env : Env) (options : OptimizationOptions) : List String :=
  (getAssetFilesAsync env options).2

/-- Working set of the optimization loop: `include || exclude ?
selectedFiles : allFiles` in the source. -/
def imagesOf (env : Env) (options : OptimizationOptions) : List String :=
  if options.includePat.isSome || options.excludePat.isSome then selectedOf env options
  else allFilesOf env options

/-- readAssetJsonAsync: ensure the state directory exists and create the
state file with an empty mapping when missing; return the parsed mapping
together with the on-disk file after the call. -/
def readAssetJsonAsync (stateFile : Option AssetOptimizationState) :
    AssetOptimizationState × Option AssetOptimizationState :=
  match stateFile with
  | none => ([], some [])
  | some s => (s, some s)

/-- The mapping loaded from the state file (empty when just created). -/
def loadedState (stateFile : Option AssetOptimizationState) : AssetOptimizationState :=
  (readAssetJsonAsync stateFile).1

/-- Run configuration: the modelled external collaborators of one run. -/
structure RunCfg where
  hashFn : Content → String
  sharp : Nat → Content → Content
  sharpAvailable : Bool

/-- Content hashes of the currently discovered candidate files, in
discovery order; a hash of the loaded state survives the staleness pass
exactly when it occurs here. -/
def liveHashes (cfg : RunCfg) (env : Env) (fs : FSt) (options : OptimizationOptions) :
    List String :=
  (allFilesOf env options).map (fun f => cfg.hashFn (FS.readD fs f))

/-- In-memory state right after the staleness eviction pass of
optimizeAsync: every loaded hash not backed by a discovered file has been
deleted. -/
def evictedState (cfg : RunCfg) (env : Env) (stateFile : Option AssetOptimizationState)
    (fs : FSt) (options : OptimizationOptions) : AssetOptimizationState :=
  (loadedState stateFile).filter (fun h => decide (h ∈ liveHashes cfg env fs options))

/-- The `hashes` object of optimizeAsync: path to content hash, computed
for every discovered file before the per-asset loop. -/
def hashesMap (cfg : RunCfg) (env : Env) (fs : FSt) (options : OptimizationOptions) :
    List (AssetPath × String) :=
  (allFilesOf env options).map (fun f => (f, cfg.hashFn (FS.readD fs f)))

/-- JavaScript property read `hashes[image]`: the stored hash, or the
string to which the undefined value coerces as a property key when the
image was never hashed (it is outside allFiles). -/
def lookupHash (m : List (AssetPath × String)) (p : AssetPath) : String :=
  ((m.find? (fun e => decide (e.1 = p))).map (·.2)).getD "undefined"

/-- Mutable state of the per-asset loop of optimizeAsync, together with
the instrumentation the claims observe: number of compressor invocations
and of availability probes. -/
structure LoopState where
  fs : FSt
  assetInfo : AssetOptimizationState
  totalSaved : Int
  compressorCalls : Nat
  probeCalls : Nat
deriving Repr

/-- Body of the per-asset loop of optimizeAsync for one image.  Returns
the updated state and whether the run aborted (the early return when sharp
is unavailable).  The branches mirror the source: skip when the
precomputed hash is already in assetInfo; otherwise probe availability;
compress; on `amountSaved > 0` move the original aside to the backup name,
move the compressed bytes in, record the recomputed hash, and resolve the
backup according to `save` and hash equality; otherwise record the
original hash and continue. -/
def stepAsset (cfg : RunCfg) (quality : Nat) (save : Bool) (hashOf : AssetPath → String)
    (image : AssetPath) (st : LoopState) : LoopState × Bool :=
  let hash := hashOf image
  if hash ∈ st.assetInfo then (st, false)
  else
    let st1 := { st with probeCalls := st.probeCalls + 1 }
    if cfg.sharpAvailable = false then (st1, true)
    else
      let orig := FS.readD st1.fs image
      let prevSize : Int := orig.length
      let newName := createNewFilename image
      let optimized := cfg.sharp quality orig
      let st2 := { st1 with compressorCalls := st1.compressorCalls + 1 }
      let newSize : Int := optimized.length
      let amountSaved : Int := prevSize - newSize
      if amountSaved > 0 then
        let fs1 := FS.write (FS.move st2.fs image newName) image optimized
        let newHash := cfg.hashFn optimized
        let info1 := insertHash st2.assetInfo newHash
        let fsInfo :=
          if save then
            if hash = newHash then (FS.remove fs1 newName, info1)
            else (fs1, insertHash info1 hash)
          else (FS.remove fs1 newName, info1)
        let saved' := if amountSaved = 0 then st2.totalSaved else st2.totalSaved + amountSaved
        ({ st2 with fs := fsInfo.1, assetInfo := fsInfo.2, totalSaved := saved' }, false)
      else
        ({ st2 with assetInfo := insertHash st2.assetInfo hash }, false)

/-- The per-asset loop of optimizeAsync: process the images in order,
stopping the whole run at the first abort. -/
def processImages (cfg : RunCfg) (quality : Nat) (save : Bool) (hashOf : AssetPath → String) :
    List AssetPath → LoopState → LoopState × Bool
  | [], st => (st, false)
  | image :: rest, st =>
    let r := stepAsset cfg quality save hashOf image st
    if r.2 then (r.1, true)
    else processImages cfg quality save hashOf rest r.1

/-- Observable outcome of one optimizeAsync run. -/
structure RunResult where
  fs : FSt
  assetInfo : AssetOptimizationState
  stateFileAfter : AssetOptimizationState
  totalSaved : Int
  compressorCalls : Nat
  probeCalls : Nat
  aborted : Bool

/-- optimizeAsync from assets.ts: load (creating if missing) the state
file, evict stale hashes, pick the working set, run the per-asset loop,
and write the final mapping back - unless the loop aborted on compressor
unavailability, in which case the early return skips the final
`assetJson.writeAsync` and the on-disk file stays as it was after the
load. -/
def optimizeAsync (cfg : RunCfg) (env : Env) (stateFile : Option AssetOptimizationState)
    (fs0 : FSt) (options : OptimizationOptions) : RunResult :=
  let assetInfo0 := loadedState stateFile
  let assetInfo1 := evictedState cfg env stateFile fs0 options
  let quality := options.quality.getD 80
  let images := imagesOf env options
  let hashOf := lookupHash (hashesMap cfg env fs0 options)
  let res := processImages cfg quality options.save hashOf images
    { fs := fs0, assetInfo := assetInfo1, totalSaved := 0,
      compressorCalls := 0, probeCalls := 0 }
  { fs := res.1.fs
    assetInfo := res.1.assetInfo
    stateFileAfter := if res.2 then assetInfo0 else res.1.assetInfo
    totalSaved := res.1.totalSaved
    compressorCalls := res.1.compressorCalls
    probeCalls := res.1.probeCalls
    aborted := res.2 }

/-- isProjectOptimized from assets.ts: false when the state file does not
exist, otherwise whether every selected candidate hashes into the loaded
state; the pair also returns the state file after the call, exposing that
the check never creates or writes it. -/
def isProjectOptimized (cfg : RunCfg) (env : Env)
    (stateFile : Option AssetOptimizationState) (fs : FSt)
    (options : OptimizationOptions) : Bool × Option AssetOptimizationState :=
  match stateFile with
  | none => (false, none)
  | some _ =>
    let selectedFiles := selectedOf env options
    let loaded := readAssetJsonAsync stateFile
    (selectedFiles.all (fun file => decide (calculateHash cfg.hashFn fs file ∈ loaded.1)),
      loaded.2)

/-- Concrete stand-in for SHA-256 in witness runs: lowercase letters
indexed by the bytes.  Distinct short contents used in witnesses get
distinct digests. -/
def demoHash (c : Content) : String :=
  String.mk ('h' :: c.map (fun n => Char.ofNat (97 + n % 26)))

/-! Basic lemmas about the file-system model. -/

theorem FS.read_cons (e : AssetPath × Content) (l : FSt) (q : AssetPath) :
    FS.read (e :: l) q = if e.1 = q then some e.2 else FS.read l q := by
  by_cases h : e.1 = q <;> simp [FS.read, List.find?, h]

theorem FS.remove_cons (e : AssetPath × Content) (l : FSt) (p : AssetPath) :
    FS.remove (e :: l) p = if e.1 = p then FS.remove l p else e :: FS.remove l p := by
  by_cases h : e.1 = p <;> simp [FS.remove, List.filter, h]

theorem FS.read_write_self (fs : FSt) (p : AssetPath) (c : Content) :
    FS.read (FS.write fs p c) p = some c := by
  simp [FS.write, FS.read_cons]

theorem FS.read_remove_ne (fs : FSt) (p q : AssetPath) (h : q ≠ p) :
    FS.read (FS.remove fs p) q = FS.read fs q := by
  induction fs with
  | nil => rfl
  | cons e rest ih =>
    rw [FS.remove_cons]
    by_cases he : e.1 = p
    · rw [if_pos he, ih, FS.read_cons, if_neg (by rw [he]; exact fun hq => h hq.symm)]
    · rw [if_neg he, FS.read_cons, FS.read_cons, ih]

theorem FS.read_remove_self (fs : FSt) (p : AssetPath) :
    FS.read (FS.remove fs p) p = none := by
  induction fs with
  | nil => rfl
  | cons e rest ih =>
    rw [FS.remove_cons]
    by_cases he : e.1 = p
    · rw [if_pos he]; exact ih
    · rw [if_neg he, FS.read_cons, if_neg he]; exact ih

theorem FS.read_write_ne (fs : FSt) (p q : AssetPath) (c : Content) (h : q ≠ p) :
    FS.read (FS.write fs p c) q = FS.read fs q := by
  rw [FS.write, FS.read_cons, if_neg (fun hq => h hq.symm), FS.read_remove_ne _ _ _ h]

theorem FS.read_move_other (fs : FSt) (src dst q : AssetPath)
    (h1 : q ≠ src) (h2 : q ≠ dst) :
    FS.read (FS.move fs src dst) q = FS.read fs q := by
  unfold FS.move
  cases hr : FS.read fs src with
  | none => rfl
  | some c => rw [FS.read_write_ne _ _ _ _ h2, FS.read_remove_ne _ _ _ h1]

theorem FS.read_move_dst (fs : FSt) (src dst : AssetPath) (c : Content)
    (h : FS.read fs src = some c) :
    FS.read (FS.move fs src dst) dst = some c := by
  unfold FS.move
  rw [h, FS.read_write_self]

/-! Lemmas about state insertion and the precomputed hash map. -/

theorem mem_insertHash (s : AssetOptimizationState) (h a : String) :
    a ∈ insertHash s h ↔ a = h ∨ a ∈ s := by
  unfold insertHash
  by_cases hm : h ∈ s
  · simp only [if_pos hm]
    constructor
    · exact fun ha => Or.inr ha
    · rintro (rfl | ha) <;> assumption
  · simp [if_neg hm]

theorem self_mem_insertHash (s : AssetOptimizationState) (h : String) :
    h ∈ insertHash s h := (mem_insertHash s h h).2 (Or.inl rfl)

theorem mem_insertHash_of_mem (s : AssetOptimizationState) (h a : String)
    (ha : a ∈ s) : a ∈ insertHash s h := (mem_insertHash s h a).2 (Or.inr ha)

theorem lookupHash_map (g : AssetPath → String) (l : List AssetPath) (p : AssetPath)
    (hp : p ∈ l) : lookupHash (l.map (fun f => (f, g f))) p = g p := by
  induction l with
  | nil => cases hp
  | cons a rest ih =>
    by_cases ha : a = p
    · subst ha
      simp [lookupHash, List.find?]
    · rcases List.mem_cons.mp hp with rfl | hmem
      · exact absurd rfl ha
      · simpa [lookupHash, List.find?, ha] using ih hmem

theorem hashesMap_lookup (cfg : RunCfg) (env : Env) (fs : FSt)
    (options : OptimizationOptions) (f : AssetPath) (hf : f ∈ allFilesOf env options) :
    lookupHash (hashesMap cfg env fs options) f = cfg.hashFn (FS.readD fs f) :=
  lookupHash_map (fun f => cfg.hashFn (FS.readD fs f)) _ f hf

theorem mem_liveHashes (cfg : RunCfg) (env : Env) (fs : FSt)
    (options : OptimizationOptions) (f : AssetPath) (hf : f ∈ allFilesOf env options) :
    cfg.hashFn (FS.readD fs f) ∈ liveHashes cfg env fs options :=
  List.mem_map.mpr ⟨f, hf, rfl⟩

theorem mem_evictedState_iff (cfg : RunCfg) (env : Env)
    (stateFile : Option AssetOptimizationState) (fs : FSt)
    (options : OptimizationOptions) (h : String) :
    h ∈ evictedState cfg env stateFile fs options ↔
      h ∈ loadedState stateFile ∧ h ∈ liveHashes cfg env fs options := by
  simp [evictedState, List.mem_filter]

/-! Branch equations for the per-asset loop body. -/

theorem stepAsset_skip (cfg : RunCfg) (quality : Nat) (save : Bool)
    (hashOf : AssetPath → String) (image : AssetPath) (st : LoopState)
    (h : hashOf image ∈ st.assetInfo) :
    stepAsset cfg quality save hashOf image st = (st, false) := by
  simp [stepAsset, h]

theorem stepAsset_unavail (cfg : RunCfg) (quality : Nat) (save : Bool)
    (hashOf : AssetPath → String) (image : AssetPath) (st : LoopState)
    (h1 : hashOf image ∉ st.assetInfo) (h2 : cfg.sharpAvailable = false) :
    stepAsset cfg quality save hashOf image st =
      ({ st with probeCalls := st.probeCalls + 1 }, true) := by
  simp [stepAsset, h1, h2]

theorem stepAsset_notImproved (cfg : RunCfg) (quality : Nat) (save : Bool)
    (hashOf : AssetPath → String) (image : AssetPath) (st : LoopState)
    (h1 : hashOf image ∉ st.assetInfo) (h2 : cfg.sharpAvailable = true)
    (h3 : ¬ (((FS.readD st.fs image).length : Int) -
      ((cfg.sharp quality (FS.readD st.fs image)).length : Int) > 0)) :
    stepAsset cfg quality save hashOf image st =
      ({ st with
          probeCalls := st.probeCalls + 1,
          compressorCalls := st.compressorCalls + 1,
          assetInfo := insertHash st.assetInfo (hashOf image) }, false) := by
  simp [stepAsset, h1, h2, h3]

theorem stepAsset_improved_nosave (cfg : RunCfg) (quality : Nat)
    (hashOf : AssetPath → String) (image : AssetPath) (st : LoopState)
    (h1 : hashOf image ∉ st.assetInfo) (h2 : cfg.sharpAvailable = true)
    (h3 : ((FS.readD st.fs image).length : Int) -
      ((cfg.sharp quality (FS.readD st.fs image)).length : Int) > 0) :
    stepAsset cfg quality false hashOf image st =
      ({ st with
          fs := FS.remove
            (FS.write (FS.move st.fs image (createNewFilename image)) image
              (cfg.sharp quality (FS.readD st.fs image)))
            (createNewFilename image),
          assetInfo := insertHash st.assetInfo
            (cfg.hashFn (cfg.sharp quality (FS.readD st.fs image))),
          totalSaved := st.totalSaved + (((FS.readD st.fs image).length : Int) -
            ((cfg.sharp quality (FS.readD st.fs image)).length : Int)),
          compressorCalls := st.compressorCalls + 1,
          probeCalls := st.probeCalls + 1 }, false) := by
  have h4 : ¬ (((FS.readD st.fs image).length : Int) -
      ((cfg.sharp quality (FS.readD st.fs image)).length : Int) = 0) := by omega
  simp [stepAsset, h1, h2, h3, h4]

theorem stepAsset_improved_save_ne (cfg : RunCfg) (quality : Nat)
    (hashOf : AssetPath → String) (image : AssetPath) (st : LoopState)
    (h1 : hashOf image ∉ st.assetInfo) (h2 : cfg.sharpAvailable = true)
    (h3 : ((FS.readD st.fs image).length : Int) -
      ((cfg.sharp quality (FS.readD st.fs image)).length : Int) > 0)
    (hne : hashOf image ≠ cfg.hashFn (cfg.sharp quality (FS.readD st.fs image))) :
    stepAsset cfg quality true hashOf image st =
      ({ st with
          fs := FS.write (FS.move st.fs image (createNewFilename image)) image
            (cfg.sharp quality (FS.readD st.fs image)),
          assetInfo := insertHash
            (insertHash st.assetInfo
              (cfg.hashFn (cfg.sharp quality (FS.readD st.fs image))))
            (hashOf image),
          totalSaved := st.totalSaved + (((FS.readD st.fs image).length : Int) -
            ((cfg.sharp quality (FS.readD st.fs image)).length : Int)),
          compressorCalls := st.compressorCalls + 1,
          probeCalls := st.probeCalls + 1 }, false) := by
  have h4 : ¬ (((FS.readD st.fs image).length : Int) -
      ((cfg.sharp quality (FS.readD st.fs image)).length : Int) = 0) := by omega
  simp [stepAsset, h1, h2, h3, h4, hne]

theorem stepAsset_improved_save_eq (cfg : RunCfg) (quality : Nat)
    (hashOf : AssetPath → String) (image : AssetPath) (st : LoopState)
    (h1 : hashOf image ∉ st.assetInfo) (h2 : cfg.sharpAvailable = true)
    (h3 : ((FS.readD st.fs image).length : Int) -
      ((cfg.sharp quality (FS.readD st.fs image)).length : Int) > 0)
    (heq : hashOf image = cfg.hashFn (cfg.sharp quality (FS.readD st.fs image))) :
    stepAsset cfg quality true hashOf image st =
      ({ st with
          fs := FS.remove
            (FS.write (FS.move st.fs image (createNewFilename image)) image
              (cfg.sharp quality (FS.readD st.fs image)))
            (createNewFilename image),
          assetInfo := insertHash st.assetInfo
            (cfg.hashFn (cfg.sharp quality (FS.readD st.fs image))),
          totalSaved := st.totalSaved + (((FS.readD st.fs image).length : Int) -
            ((cfg.sharp quality (FS.readD st.fs image)).length : Int)),
          compressorCalls := st.compressorCalls + 1,
          probeCalls := st.probeCalls + 1 }, false) := by
  have h4 : ¬ (((FS.readD st.fs image).length : Int) -
      ((cfg.sharp quality (FS.readD st.fs image)).length : Int) = 0) := by omega
  have h1' : cfg.hashFn (cfg.sharp quality (FS.readD st.fs image)) ∉ st.assetInfo :=
    heq ▸ h1
  simp [stepAsset, h1, h1', h2, h3, h4, heq]

/-! Lemmas about the whole per-asset loop. -/

theorem processImages_cons (cfg : RunCfg) (quality : Nat) (save : Bool)
    (hashOf : AssetPath → String) (image : AssetPath) (rest : List AssetPath)
    (st : LoopState) :
    processImages cfg quality save hashOf (image :: rest) st =
      (if (stepAsset cfg quality save hashOf image st).2
        then ((stepAsset cfg quality save hashOf image st).1, true)
        else processImages cfg quality save hashOf rest
          (stepAsset cfg quality save hashOf image st).1) := by
  rfl

theorem processImages_skip_all (cfg : RunCfg) (quality : Nat) (save : Bool)
    (hashOf : AssetPath → String) (images : List AssetPath) (st : LoopState)
    (h : ∀ f ∈ images, hashOf f ∈ st.assetInfo) :
    processImages cfg quality save hashOf images st = (st, false) := by
  induction images with
  | nil => rfl
  | cons a rest ih =>
    rw [processImages_cons,
      stepAsset_skip cfg quality save hashOf a st (h a (List.mem_cons_self a rest))]
    simpa using ih (fun f hf => h f (List.mem_cons_of_mem a hf))

theorem stepAsset_assetInfo_mono (cfg : RunCfg) (quality : Nat) (save : Bool)
    (hashOf : AssetPath → String) (image : AssetPath) (st : LoopState) (h : String)
    (hm : h ∈ st.assetInfo) :
    h ∈ (stepAsset cfg quality save hashOf image st).1.assetInfo := by
  unfold stepAsset
  dsimp only
  split
  · exact hm
  · split
    · exact hm
    · split
      · split
        · split
          · exact mem_insertHash_of_mem _ _ _ hm
          · exact mem_insertHash_of_mem _ _ _ (mem_insertHash_of_mem _ _ _ hm)
        · exact mem_insertHash_of_mem _ _ _ hm
      · exact mem_insertHash_of_mem _ _ _ hm

theorem processImages_assetInfo_mono (cfg : RunCfg) (quality : Nat) (save : Bool)
    (hashOf : AssetPath → String) (images : List AssetPath) (st : LoopState) (h : String)
    (hm : h ∈ st.assetInfo) :
    h ∈ (processImages cfg quality save hashOf images st).1.assetInfo := by
  induction images generalizing st with
  | nil => exact hm
  | cons a rest ih =>
    rw [processImages_cons]
    by_cases hab : (stepAsset cfg quality save hashOf a st).2
    · simpa [hab] using stepAsset_assetInfo_mono cfg quality save hashOf a st h hm
    · simpa [hab] using ih _ (stepAsset_assetInfo_mono cfg quality save hashOf a st h hm)

theorem stepAsset_read_preserved (cfg : RunCfg) (quality : Nat) (save : Bool)
    (hashOf : AssetPath → String) (image : AssetPath) (st : LoopState) (q : AssetPath)
    (hq1 : q ≠ image) (hq2 : q ≠ createNewFilename image) :
    FS.read (stepAsset cfg quality save hashOf image st).1.fs q = FS.read st.fs q := by
  unfold stepAsset
  dsimp only
  split
  · rfl
  · split
    · rfl
    · split
      · split
        · split
          · dsimp only
            rw [FS.read_remove_ne _ _ _ hq2, FS.read_write_ne _ _ _ _ hq1,
              FS.read_move_other _ _ _ _ hq1 hq2]
          · dsimp only
            rw [FS.read_write_ne _ _ _ _ hq1, FS.read_move_other _ _ _ _ hq1 hq2]
        · dsimp only
          rw [FS.read_remove_ne _ _ _ hq2, FS.read_write_ne _ _ _ _ hq1,
            FS.read_move_other _ _ _ _ hq1 hq2]
      · rfl

theorem processImages_read_preserved (cfg : RunCfg) (quality : Nat) (save : Bool)
    (hashOf : AssetPath → String) (images : List AssetPath) (st : LoopState)
    (q : AssetPath) (hq1 : q ∉ images)
    (hq2 : ∀ g ∈ images, createNewFilename g ≠ q) :
    FS.read (processImages cfg quality save hashOf images st).1.fs q = FS.read st.fs q := by
  induction images generalizing st with
  | nil => rfl
  | cons a rest ih =>
    have hqa : q ≠ a := fun hcontr => hq1 (hcontr ▸ List.mem_cons_self a rest)
    have hqb : q ≠ createNewFilename a :=
      fun hcontr => hq2 a (List.mem_cons_self a rest) hcontr.symm
    have hstep := stepAsset_read_preserved cfg quality save hashOf a st q hqa hqb
    rw [processImages_cons]
    by_cases hab : (stepAsset cfg quality save hashOf a st).2
    · simpa [hab] using hstep
    · have := ih (stepAsset cfg quality save hashOf a st).1
        (fun hcontr => hq1 (List.mem_cons_of_mem a hcontr))
        (fun g hg => hq2 g (List.mem_cons_of_mem a hg))
      simp only [hab, if_neg]
      rw [if_neg (by simp [hab]), this, hstep]

theorem stepAsset_readD_preserved (cfg : RunCfg) (quality : Nat) (save : Bool)
    (hashOf : AssetPath → String) (image : AssetPath) (st : LoopState) (q : AssetPath)
    (hq1 : q ≠ image) (hq2 : q ≠ createNewFilename image) :
    FS.readD (stepAsset cfg quality save hashOf image st).1.fs q = FS.readD st.fs q := by
  unfold FS.readD
  rw [stepAsset_read_preserved cfg quality save hashOf image st q hq1 hq2]

theorem processImages_readD_preserved (cfg : RunCfg) (quality : Nat) (save : Bool)
    (hashOf : AssetPath → String) (images : List AssetPath) (st : LoopState)
    (q : AssetPath) (hq1 : q ∉ images)
    (hq2 : ∀ g ∈ images, createNewFilename g ≠ q) :
    FS.readD (processImages cfg quality save hashOf images st).1.fs q =
      FS.readD st.fs q := by
  unfold FS.readD
  rw [processImages_read_preserved cfg quality save hashOf images st q hq1 hq2]

/-- Specification of one non-skipped loop step when the compressor is
available: the step does not abort, and afterwards the hash of the current
bytes of the processed image is recorded in assetInfo (the recomputed hash
after an improving replace, the original hash otherwise). -/
theorem stepAsset_nonskip_spec (cfg : RunCfg) (quality : Nat) (save : Bool)
    (hashOf : AssetPath → String) (image : AssetPath) (st : LoopState)
    (h1 : hashOf image ∉ st.assetInfo) (h2 : cfg.sharpAvailable = true)
    (hne : image ≠ createNewFilename image)
    (hagree : hashOf image = cfg.hashFn (FS.readD st.fs image)) :
    (stepAsset cfg quality save hashOf image st).2 = false ∧
      cfg.hashFn (FS.readD (stepAsset cfg quality save hashOf image st).1.fs image) ∈
        (stepAsset cfg quality save hashOf image st).1.assetInfo := by
  by_cases himp : ((FS.readD st.fs image).length : Int) -
      ((cfg.sharp quality (FS.readD st.fs image)).length : Int) > 0
  · cases save with
    | false =>
      rw [stepAsset_improved_nosave cfg quality hashOf image st h1 h2 himp]
      refine ⟨rfl, ?_⟩
      have : FS.readD (FS.remove
          (FS.write (FS.move st.fs image (createNewFilename image)) image
            (cfg.sharp quality (FS.readD st.fs image)))
          (createNewFilename image)) image =
          cfg.sharp quality (FS.readD st.fs image) := by
        unfold FS.readD
        rw [FS.read_remove_ne _ _ _ hne, FS.read_write_self]
        rfl
      rw [this]
      exact self_mem_insertHash _ _
    | true =>
      by_cases heqh : hashOf image = cfg.hashFn (cfg.sharp quality (FS.readD st.fs image))
      · rw [stepAsset_improved_save_eq cfg quality hashOf image st h1 h2 himp heqh]
        refine ⟨rfl, ?_⟩
        have : FS.readD (FS.remove
            (FS.write (FS.move st.fs image (createNewFilename image)) image
              (cfg.sharp quality (FS.readD st.fs image)))
            (createNewFilename image)) image =
            cfg.sharp quality (FS.readD st.fs image) := by
          unfold FS.readD
          rw [FS.read_remove_ne _ _ _ hne, FS.read_write_self]
          rfl
        rw [this]
        exact self_mem_insertHash _ _
      · rw [stepAsset_improved_save_ne cfg quality hashOf image st h1 h2 himp heqh]
        refine ⟨rfl, ?_⟩
        have : FS.readD (FS.write (FS.move st.fs image (createNewFilename image)) image
            (cfg.sharp quality (FS.readD st.fs image))) image =
            cfg.sharp quality (FS.readD st.fs image) := by
          unfold FS.readD
          rw [FS.read_write_self]
          rfl
        rw [this]
        exact mem_insertHash_of_mem _ _ _ (self_mem_insertHash _ _)
  · rw [stepAsset_notImproved cfg quality save hashOf image st h1 h2 himp]
    refine ⟨rfl, ?_⟩
    rw [← hagree]
    exact self_mem_insertHash _ _

/-- Completion of the loop under an available compressor: no abort, and at
the end the hash of the final bytes of every visited image is recorded in
assetInfo. -/
theorem processImages_complete (cfg : RunCfg) (quality : Nat) (save : Bool)
    (hashOf : AssetPath → String) (images0 : List AssetPath)
    (havail : cfg.sharpAvailable = true)
    (hback : ∀ f ∈ images0, createNewFilename f ∉ images0) :
    ∀ (rest : List AssetPath) (st : LoopState), rest.Nodup →
    (∀ f ∈ rest, f ∈ images0) →
    (∀ f ∈ rest, hashOf f = cfg.hashFn (FS.readD st.fs f)) →
    (processImages cfg quality save hashOf rest st).2 = false ∧
      ∀ f ∈ rest,
        cfg.hashFn (FS.readD (processImages cfg quality save hashOf rest st).1.fs f) ∈
          (processImages cfg quality save hashOf rest st).1.assetInfo := by
  intro rest
  induction rest with
  | nil => exact fun st _ _ _ => ⟨rfl, by simp⟩
  | cons a rest' ih =>
    intro st hnodup hmem0 hagree
    have hnodup' : rest'.Nodup := (List.nodup_cons.mp hnodup).2
    have hanotin : a ∉ rest' := (List.nodup_cons.mp hnodup).1
    have hmem0' : ∀ f ∈ rest', f ∈ images0 :=
      fun f hf => hmem0 f (List.mem_cons_of_mem a hf)
    have ha0 : a ∈ images0 := hmem0 a (List.mem_cons_self a rest')
    have hbackrest : ∀ g ∈ rest', createNewFilename g ≠ a :=
      fun g hg hcontr => hback g (hmem0' g hg) (hcontr ▸ ha0)
    by_cases hskip : hashOf a ∈ st.assetInfo
    · rw [processImages_cons, stepAsset_skip cfg quality save hashOf a st hskip]
      simp only [if_neg Bool.false_ne_true]
      obtain ⟨hab, hfin⟩ := ih st hnodup' hmem0'
        (fun f hf => hagree f (List.mem_cons_of_mem a hf))
      refine ⟨hab, ?_⟩
      intro f hf
      rcases List.mem_cons.mp hf with rfl | hf'
      · rw [processImages_readD_preserved cfg quality save hashOf rest' st f hanotin
          hbackrest]
        rw [← hagree f (List.mem_cons_self f rest')]
        exact processImages_assetInfo_mono cfg quality save hashOf rest' st _ hskip
      · exact hfin f hf'
    · have hnea : a ≠ createNewFilename a :=
        fun hcontr => hback a ha0 (hcontr ▸ ha0)
      obtain ⟨hstep2, hself⟩ := stepAsset_nonskip_spec cfg quality save hashOf a st hskip
        havail hnea (hagree a (List.mem_cons_self a rest'))
      rw [processImages_cons, if_neg (by rw [hstep2]; exact Bool.false_ne_true)]
      set st1 := (stepAsset cfg quality save hashOf a st).1 with hst1
      have hagree' : ∀ f ∈ rest', hashOf f = cfg.hashFn (FS.readD st1.fs f) := by
        intro f hf
        have hfa : f ≠ a := fun hcontr => hanotin (hcontr ▸ hf)
        have hfb : f ≠ createNewFilename a := fun hcontr =>
          hback a ha0 (hcontr ▸ hmem0' f hf)
        rw [hst1, stepAsset_readD_preserved cfg quality save hashOf a st f hfa hfb]
        exact hagree f (List.mem_cons_of_mem a hf)
      obtain ⟨hab, hfin⟩ := ih st1 hnodup' hmem0' hagree'
      refine ⟨hab, ?_⟩
      intro f hf
      rcases List.mem_cons.mp hf with rfl | hf'
      · rw [processImages_readD_preserved cfg quality save hashOf rest' st1 f hanotin
          hbackrest]
        exact processImages_assetInfo_mono cfg quality save hashOf rest' st1 _ hself
      · exact hfin f hf'

/-- Exactness of the loop for runs without the save flag: every hash in
the final assetInfo is the hash of the final bytes of some file of the
full working set, provided this held of the initial assetInfo. -/
theorem processImages_exact (cfg : RunCfg) (quality : Nat)
    (hashOf : AssetPath → String) (images0 : List AssetPath)
    (havail : cfg.sharpAvailable = true)
    (hback : ∀ f ∈ images0, createNewFilename f ∉ images0) :
    ∀ (rest : List AssetPath) (st : LoopState), rest.Nodup →
    (∀ f ∈ rest, f ∈ images0) →
    (∀ f ∈ rest, hashOf f = cfg.hashFn (FS.readD st.fs f)) →
    (∀ h ∈ st.assetInfo, ∃ f, f ∈ images0 ∧ cfg.hashFn (FS.readD st.fs f) = h) →
    ∀ h ∈ (processImages cfg quality false hashOf rest st).1.assetInfo,
      ∃ f, f ∈ images0 ∧
        cfg.hashFn (FS.readD (processImages cfg quality false hashOf rest st).1.fs f) = h := by
  intro rest
  induction rest with
  | nil => exact fun st _ _ _ hinv => hinv
  | cons a rest' ih =>
    intro st hnodup hmem0 hagree hinv
    have hnodup' : rest'.Nodup := (List.nodup_cons.mp hnodup).2
    have hanotin : a ∉ rest' := (List.nodup_cons.mp hnodup).1
    have hmem0' : ∀ f ∈ rest', f ∈ images0 :=
      fun f hf => hmem0 f (List.mem_cons_of_mem a hf)
    have ha0 : a ∈ images0 := hmem0 a (List.mem_cons_self a rest')
    have hagreea : hashOf a = cfg.hashFn (FS.readD st.fs a) :=
      hagree a (List.mem_cons_self a rest')
    by_cases hskip : hashOf a ∈ st.assetInfo
    · rw [processImages_cons, stepAsset_skip cfg quality false hashOf a st hskip]
      simp only [if_neg Bool.false_ne_true]
      exact ih st hnodup' hmem0'
        (fun f hf => hagree f (List.mem_cons_of_mem a hf)) hinv
    · have hnea : a ≠ createNewFilename a :=
        fun hcontr => hback a ha0 (hcontr ▸ ha0)
      obtain ⟨hstep2, _⟩ := stepAsset_nonskip_spec cfg quality false hashOf a st hskip
        havail hnea hagreea
      rw [processImages_cons, if_neg (by rw [hstep2]; exact Bool.false_ne_true)]
      set st1 := (stepAsset cfg quality false hashOf a st).1 with hst1
      have hpres : ∀ f, f ≠ a → f ∈ images0 →
          FS.readD st1.fs f = FS.readD st.fs f := by
        intro f hfa hf0
        have hfb : f ≠ createNewFilename a := fun hcontr =>
          hback a ha0 (hcontr ▸ hf0)
        rw [hst1]
        exact stepAsset_readD_preserved cfg quality false hashOf a st f hfa hfb
      have hagree' : ∀ f ∈ rest', hashOf f = cfg.hashFn (FS.readD st1.fs f) := by
        intro f hf
        rw [hpres f (fun hcontr => hanotin (hcontr ▸ hf)) (hmem0' f hf)]
        exact hagree f (List.mem_cons_of_mem a hf)
      have hinv' : ∀ h ∈ st1.assetInfo,
          ∃ f, f ∈ images0 ∧ cfg.hashFn (FS.readD st1.fs f) = h := by
        have holdwitness : ∀ h ∈ st.assetInfo,
            ∃ f, f ∈ images0 ∧ cfg.hashFn (FS.readD st1.fs f) = h := by
          intro h hh
          obtain ⟨g, hg0, hgh⟩ := hinv h hh
          have hga : g ≠ a := by
            intro hcontr
            subst hcontr
            rw [← hgh] at hh
            rw [← hagreea] at hh
            exact hskip hh
          exact ⟨g, hg0, by rw [hpres g hga hg0]; exact hgh⟩
        by_cases himp : ((FS.readD st.fs a).length : Int) -
            ((cfg.sharp quality (FS.readD st.fs a)).length : Int) > 0
        · intro h hh
          have hshape := stepAsset_improved_nosave cfg quality hashOf a st hskip havail himp
          rw [hst1, hshape] at hh
          simp only at hh
          rcases (mem_insertHash _ _ _).mp hh with rfl | hold
          · refine ⟨a, ha0, ?_⟩
            have : FS.readD st1.fs a = cfg.sharp quality (FS.readD st.fs a) := by
              rw [hst1, hshape]
              unfold FS.readD
              simp only
              rw [FS.read_remove_ne _ _ _ hnea, FS.read_write_self]
              rfl
            rw [this]
          · exact holdwitness h hold
        · intro h hh
          have hshape := stepAsset_notImproved cfg quality false hashOf a st hskip havail himp
          rw [hst1, hshape] at hh
          simp only at hh
          rcases (mem_insertHash _ _ _).mp hh with rfl | hold
          · refine ⟨a, ha0, ?_⟩
            have : FS.readD st1.fs a = FS.readD st.fs a := by
              rw [hst1, hshape]
            rw [this, ← hagreea]
          · exact holdwitness h hold
      exact ih st1 hnodup' hmem0' hagree' hinv'

/-! Run-level glue: the loop inside optimizeAsync, exposed for proofs. -/

/-- The per-asset loop exactly as optimizeAsync invokes it. -/
def runLoop (cfg : RunCfg) (env : Env) (stateFile : Option AssetOptimizationState)
    (fs0 : FSt) (options : OptimizationOptions) : LoopState × Bool :=
  processImages cfg (options.quality.getD 80) options.save
    (lookupHash (hashesMap cfg env fs0 options)) (imagesOf env options)
    { fs := fs0, assetInfo := evictedState cfg env stateFile fs0 options,
      totalSaved := 0, compressorCalls := 0, probeCalls := 0 }

theorem optimizeAsync_aborted (cfg : RunCfg) (env : Env)
    (stateFile : Option AssetOptimizationState) (fs0 : FSt)
    (options : OptimizationOptions) :
    (optimizeAsync cfg env stateFile fs0 options).aborted =
      (runLoop cfg env stateFile fs0 options).2 := rfl

theorem optimizeAsync_assetInfo (cfg : RunCfg) (env : Env)
    (stateFile : Option AssetOptimizationState) (fs0 : FSt)
    (options : OptimizationOptions) :
    (optimizeAsync cfg env stateFile fs0 options).assetInfo =
      (runLoop cfg env stateFile fs0 options).1.assetInfo := rfl

theorem optimizeAsync_fs (cfg : RunCfg) (env : Env)
    (stateFile : Option AssetOptimizationState) (fs0 : FSt)
    (options : OptimizationOptions) :
    (optimizeAsync cfg env stateFile fs0 options).fs =
      (runLoop cfg env stateFile fs0 options).1.fs := rfl

theorem optimizeAsync_totalSaved (cfg : RunCfg) (env : Env)
    (stateFile : Option AssetOptimizationState) (fs0 : FSt)
    (options : OptimizationOptions) :
    (optimizeAsync cfg env stateFile fs0 options).totalSaved =
      (runLoop cfg env stateFile fs0 options).1.totalSaved := rfl

theorem optimizeAsync_compressorCalls (cfg : RunCfg) (env : Env)
    (stateFile : Option AssetOptimizationState) (fs0 : FSt)
    (options : OptimizationOptions) :
    (optimizeAsync cfg env stateFile fs0 options).compressorCalls =
      (runLoop cfg env stateFile fs0 options).1.compressorCalls := rfl

theorem optimizeAsync_probeCalls (cfg : RunCfg) (env : Env)
    (stateFile : Option AssetOptimizationState) (fs0 : FSt)
    (options : OptimizationOptions) :
    (optimizeAsync cfg env stateFile fs0 options).probeCalls =
      (runLoop cfg env stateFile fs0 options).1.probeCalls := rfl

theorem optimizeAsync_stateFileAfter (cfg : RunCfg) (env : Env)
    (stateFile : Option AssetOptimizationState) (fs0 : FSt)
    (options : OptimizationOptions) :
    (optimizeAsync cfg env stateFile fs0 options).stateFileAfter =
      (if (runLoop cfg env stateFile fs0 options).2 then loadedState stateFile
        else (runLoop cfg env stateFile fs0 options).1.assetInfo) := rfl

/-! Lemmas about paths and the image-extension filter. -/

theorem splitAtLast_eq_none (sep : Char) (cs : List Char)
    (h : splitAtLast sep cs = none) : sep ∉ cs := by
  induction cs with
  | nil => simp
  | cons c rest ih =>
    intro hmem
    unfold splitAtLast at h
    cases hrec : splitAtLast sep rest with
    | some pr => rw [hrec] at h; simp at h
    | none =>
      rw [hrec] at h
      by_cases hc : c = sep
      · simp [hc] at h
      · rcases List.mem_cons.mp hmem with rfl | hmem'
        · exact hc rfl
        · exact ih hrec hmem'

theorem splitAtLast_eq_some (sep : Char) (cs : List Char) :
    ∀ (a b : List Char), splitAtLast sep cs = some (a, b) →
      cs = a ++ sep :: b ∧ sep ∉ b := by
  induction cs with
  | nil => intro a b h; simp [splitAtLast] at h
  | cons c rest ih =>
    intro a b h
    cases hrec : splitAtLast sep rest with
    | some pr =>
      obtain ⟨pre, post⟩ := pr
      simp only [splitAtLast, hrec, Option.some.injEq, Prod.mk.injEq] at h
      obtain ⟨ha, hb⟩ := h
      subst ha
      subst hb
      obtain ⟨hrest, hnot⟩ := ih pre post hrec
      exact ⟨by rw [hrest]; simp, hnot⟩
    | none =>
      by_cases hc : c = sep
      · simp only [splitAtLast, hrec, hc, if_pos, Option.some.injEq,
          Prod.mk.injEq] at h
        obtain ⟨ha, hb⟩ := h
        subst ha
        subst hb
        exact ⟨by simp [hc], splitAtLast_eq_none sep rest hrec⟩
      · simp [splitAtLast, hrec, hc] at h

theorem pathJoin_data_suffix (d b : String) :
    ∃ r : List Char, (pathJoin d b).data = r ++ b.data := by
  unfold pathJoin
  by_cases h1 : d = ""
  · exact ⟨[], by simp [h1]⟩
  · by_cases h2 : d = "/"
    · refine ⟨['/'], ?_⟩
      simp only [h1, h2, if_neg, if_pos, String.data_append]
      rfl
    · refine ⟨d.data ++ ['/'], ?_⟩
      simp only [h1, h2, if_neg, String.data_append]
      simp

theorem strEndsWith_iff (s t : String) :
    strEndsWith s t = true ↔ t.data <:+ s.data := by
  unfold strEndsWith
  exact decide_eq_true_iff

/-- Decomposition of a path with a nonempty parsed extension: the path and
its backup name both end in the same dot-started extension tail. -/
theorem createNewFilename_decomposition (p : String)
    (hext : (pathParse p).ext ≠ "") :
    ∃ (q r e : List Char), p.data = q ++ '.' :: e ∧
      (createNewFilename p).data = r ++ '.' :: e := by
  unfold createNewFilename pathParse at *
  cases hsl : splitAtLast '/' p.data with
  | none =>
    simp only [hsl] at hext ⊢
    cases hdot : splitAtLast '.' p.data with
    | none => simp [hdot] at hext
    | some pr =>
      obtain ⟨nm, e⟩ := pr
      by_cases hnm : nm = []
      · simp [hdot, hnm] at hext
      · simp only [hdot, if_neg hnm] at hext ⊢
        obtain ⟨hsplit, _⟩ := splitAtLast_eq_some '.' p.data nm e hdot
        obtain ⟨r0, hr0⟩ := pathJoin_data_suffix ""
          (String.mk nm ++ ".orig" ++ String.mk ('.' :: e))
        refine ⟨nm, r0 ++ nm ++ ".orig".data, e, hsplit, ?_⟩
        rw [hr0]
        simp [String.data_append]
  | some pr =>
    obtain ⟨pre, b⟩ := pr
    simp only [hsl] at hext ⊢
    obtain ⟨hslash, _⟩ := splitAtLast_eq_some '/' p.data pre b hsl
    cases hdot : splitAtLast '.' b with
    | none => simp [hdot] at hext
    | some pr2 =>
      obtain ⟨nm, e⟩ := pr2
      by_cases hnm : nm = []
      · simp [hdot, hnm] at hext
      · simp only [hdot, if_neg hnm] at hext ⊢
        obtain ⟨hsplit, _⟩ := splitAtLast_eq_some '.' b nm e hdot
        obtain ⟨r0, hr0⟩ := pathJoin_data_suffix
          (if pre = [] then "/" else String.mk pre)
          (String.mk nm ++ ".orig" ++ String.mk ('.' :: e))
        refine ⟨pre ++ '/' :: nm, r0 ++ nm ++ ".orig".data, e, ?_, ?_⟩
        · rw [hslash, hsplit]
          simp
        · rw [hr0]
          simp [String.data_append]

/-- Uniqueness of a dot-headed suffix of a dot-headed list whose tail is
dot-free. -/
theorem suffix_from_dot_unique (tl body : List Char) (hb : '.' ∉ body)
    (h : ('.' :: tl) <:+ ('.' :: body)) : tl = body := by
  obtain ⟨w, hw⟩ := h
  cases w with
  | nil => simpa using hw
  | cons c w' =>
    rw [List.cons_append] at hw
    injection hw with hc hbody
    exact absurd (hbody ▸ (by simp : '.' ∈ w' ++ '.' :: tl)) hb

/-- The backup name of an image path with a real (parsed) extension is
itself an image path. -/
theorem createNewFilename_keeps_image_ext (p : String)
    (himg : isImageFile (lowerStr p) = true)
    (hext : (pathParse p).ext ≠ "") :
    isImageFile (lowerStr (createNewFilename p)) = true := by
  obtain ⟨q, r, e, hp, hnew⟩ := createNewFilename_decomposition p hext
  have hlowp : (lowerStr p).data =
      q.map Char.toLower ++ '.' :: e.map Char.toLower := by
    show (p.data.map Char.toLower) = _
    rw [hp]
    simp [Char.toLower]
  have hlownew : (lowerStr (createNewFilename p)).data =
      r.map Char.toLower ++ '.' :: e.map Char.toLower := by
    show ((createNewFilename p).data.map Char.toLower) = _
    rw [hnew]
    simp [Char.toLower]
  have hS : ('.' :: e.map Char.toLower) <:+ (lowerStr (createNewFilename p)).data := by
    rw [hlownew]
    exact List.suffix_append _ _
  have hSp : ('.' :: e.map Char.toLower) <:+ (lowerStr p).data := by
    rw [hlowp]
    exact List.suffix_append _ _
  have htrans : ∀ T : List Char, T = '.' :: T.tail → '.' ∉ T.tail →
      T <:+ (lowerStr p).data →
      T <:+ (lowerStr (createNewFilename p)).data := by
    intro T hT hTdot hTsuff
    rcases List.suffix_or_suffix_of_suffix hTsuff hSp with hTS | hST
    · exact hTS.trans hS
    · rw [hT] at hST ⊢
      rw [← suffix_from_dot_unique (e.map Char.toLower) T.tail hTdot hST]
      exact hS
  unfold isImageFile at himg ⊢
  rcases Bool.or_eq_true _ _ |>.mp himg with h12 | h3
  · rcases Bool.or_eq_true _ _ |>.mp h12 with h1 | h2
    · have := htrans ".png".data rfl (by decide) ((strEndsWith_iff _ _).mp h1)
      rw [(strEndsWith_iff (lowerStr (createNewFilename p)) ".png").mpr this]
      rfl
    · have := htrans ".jpg".data rfl (by decide) ((strEndsWith_iff _ _).mp h2)
      rw [(strEndsWith_iff (lowerStr (createNewFilename p)) ".jpg").mpr this]
      simp
  · have := htrans ".jpeg".data rfl (by decide) ((strEndsWith_iff _ _).mp h3)
    rw [(strEndsWith_iff (lowerStr (createNewFilename p)) ".jpeg").mpr this]
    simp

/-! Membership characterizations for the asset selector. -/

theorem mem_globSync (env : Env) (pat : String) (f : AssetPath) :
    f ∈ globSync env pat ↔ f ∈ env.projectFiles ∧ env.globMatch pat f = true := by
  unfold globSync
  exact List.mem_filter

theorem mem_discoveredFiles (env : Env) (f : AssetPath) :
    f ∈ discoveredFiles env ↔
      ∃ pat ∈ env.assetBundlePatterns.getD ["**/*"], f ∈ globSync env pat := by
  unfold discoveredFiles
  exact List.mem_flatMap

theorem discoveredFiles_subset_projectFiles (env : Env) (f : AssetPath)
    (h : f ∈ discoveredFiles env) : f ∈ env.projectFiles := by
  obtain ⟨pat, _, hf⟩ := (mem_discoveredFiles env f).mp h
  exact ((mem_globSync env pat f).mp hf).1

theorem mem_filterImages (files : List String) (projectDir : String) (x : String) :
    x ∈ filterImages files projectDir ↔
      (∃ f ∈ files, withProjectDir projectDir f = x) ∧
        isImageFile (lowerStr x) = true := by
  unfold filterImages
  constructor
  · intro hx
    obtain ⟨hmem, himg⟩ := List.mem_filter.mp hx
    obtain ⟨f, hf, hfx⟩ := List.mem_map.mp hmem
    exact ⟨⟨f, hf, hfx⟩, himg⟩
  · rintro ⟨⟨f, hf, hfx⟩, himg⟩
    exact List.mem_filter.mpr ⟨List.mem_map.mpr ⟨f, hf, hfx⟩, himg⟩

/-- Passing the include filter: no include pattern, or the pattern matches. -/
def passesInclude (env : Env) (options : OptimizationOptions) (f : AssetPath) : Prop :=
  ∀ pat, options.includePat = some pat → env.globMatch pat f = true

/-- Passing the exclude filter: no exclude pattern, or the file is not
among the files the exclude pattern matches. -/
def passesExclude (env : Env) (options : OptimizationOptions) (f : AssetPath) : Prop :=
  ∀ pat, options.excludePat = some pat → f ∉ globSync env pat

theorem mem_selectedOf (env : Env) (options : OptimizationOptions)
    (hinc : ∀ pat, options.includePat = some pat →
      ∀ f ∈ globSync env pat, f ∈ discoveredFiles env)
    (x : String) :
    x ∈ selectedOf env options ↔
      (∃ f, f ∈ discoveredFiles env ∧ passesInclude env options f ∧
        passesExclude env options f ∧ withProjectDir env.projectDir f = x) ∧
        isImageFile (lowerStr x) = true := by
  have hbase : ∀ f : AssetPath,
      (f ∈ match options.includePat with
        | some pat => globSync env pat
        | none => discoveredFiles env) ↔
      (f ∈ discoveredFiles env ∧ passesInclude env options f) := by
    intro f
    cases hpat : options.includePat with
    | none =>
      simp only
      exact ⟨fun h => ⟨h, fun pat hp => by rw [hpat] at hp; cases hp⟩, fun h => h.1⟩
    | some pat =>
      simp only
      constructor
      · intro h
        refine ⟨hinc pat hpat f h, fun pat' hp' => ?_⟩
        rw [hpat] at hp'
        injection hp' with h2
        rw [← h2]
        exact ((mem_globSync env pat f).mp h).2
      · rintro ⟨hdisc, hpass⟩
        exact (mem_globSync env pat f).mpr
          ⟨discoveredFiles_subset_projectFiles env f hdisc, hpass pat hpat⟩
  unfold selectedOf getAssetFilesAsync
  rw [mem_filterImages]
  constructor
  · rintro ⟨⟨f, hf, hfx⟩, himg⟩
    refine ⟨⟨f, ?_, ?_, ?_, hfx⟩, himg⟩
    · cases hexc : options.excludePat with
      | none =>
        rw [hexc] at hf
        exact ((hbase f).mp hf).1
      | some pat =>
        rw [hexc] at hf
        exact ((hbase f).mp (List.mem_filter.mp hf).1).1
    · cases hexc : options.excludePat with
      | none =>
        rw [hexc] at hf
        exact ((hbase f).mp hf).2
      | some pat =>
        rw [hexc] at hf
        exact ((hbase f).mp (List.mem_filter.mp hf).1).2
    · cases hexc : options.excludePat with
      | none =>
        intro pat hp
        rw [hexc] at hp
        cases hp
      | some pat =>
        rw [hexc] at hf
        intro pat' hp'
        rw [hexc] at hp'
        injection hp' with h2
        rw [← h2]
        have := (List.mem_filter.mp hf).2
        simpa using this
  · rintro ⟨⟨f, hdisc, hpinc, hpexc, hfx⟩, himg⟩
    refine ⟨⟨f, ?_, hfx⟩, himg⟩
    cases hexc : options.excludePat with
    | none =>
      dsimp only
      exact (hbase f).mpr ⟨hdisc, hpinc⟩
    | some pat =>
      dsimp only
      refine List.mem_filter.mpr ⟨(hbase f).mpr ⟨hdisc, hpinc⟩, ?_⟩
      simpa using hpexc pat hexc

/-! Concrete fixtures used by witnesses and counterexamples. -/

/-- Glob matcher for the concrete scenarios: the default pattern matches
everything, `*.png` matches png files, `logo.png` matches that file, and
the two patterns `pa` and `pb` match exactly `a.png` and `b.png`. -/
def wMatch : String → AssetPath → Bool := fun pat f =>
  (pat = "**/*") || (pat = "*.png" && strEndsWith f ".png") ||
  (pat = "logo.png" && f = "logo.png") ||
  (pat = "pa" && f = "a.png") || (pat = "pb" && f = "b.png")

/-- One-file project. -/
def envOne : Env :=
  { projectDir := "p", projectFiles := ["a.png"], assetBundlePatterns := none,
    globMatch := wMatch }

/-- Two-file project whose assetBundlePatterns only discover `a.png`. -/
def envTwo : Env :=
  { projectDir := "p", projectFiles := ["a.png", "b.png"],
    assetBundlePatterns := some ["pa"], globMatch := wMatch }

/-- Three-file project of the filter example in the specification. -/
def envLogo : Env :=
  { projectDir := "p", projectFiles := ["logo.png", "icon.png", "photo.jpg"],
    assetBundlePatterns := none, globMatch := wMatch }

/-- Compressor missing. -/
def cfgUnavailable : RunCfg :=
  { hashFn := demoHash, sharp := fun _ c => c, sharpAvailable := false }

/-- Available compressor that returns its input unchanged. -/
def cfgIdentity : RunCfg :=
  { hashFn := demoHash, sharp := fun _ c => c, sharpAvailable := true }

/-- Available compressor that keeps only the first two bytes. -/
def cfgShrink : RunCfg :=
  { hashFn := demoHash, sharp := fun _ c => c.take 2, sharpAvailable := true }

/-- Default options. -/
def optsNone : OptimizationOptions := {}

/-- Options with the save flag. -/
def optsSave : OptimizationOptions := { save := true }

/-- Options with an include pattern selecting `b.png` only. -/
def optsIncB : OptimizationOptions := { includePat := some "pb" }

/-- Options of the filter example: include `*.png`, exclude `logo.png`. -/
def optsLogo : OptimizationOptions :=
  { includePat := some "*.png", excludePat := some "logo.png" }

/-! Claim C1. -/

/-- C1, counterexample: with the compressor unavailable and a stale hash
in the loaded state, the run aborts; the in-memory mapping has the stale
hash evicted (assetInfo is empty) but the persisted file still holds it:
the final persist call did NOT run on the early return, contradicting the
claim that accumulated in-memory changes are committed. -/
theorem c1_counterexample :
    (optimizeAsync cfgUnavailable envOne (some ["stale"]) [("p/a.png", [1, 2])]
      optsNone).aborted = true ∧
    (optimizeAsync cfgUnavailable envOne (some ["stale"]) [("p/a.png", [1, 2])]
      optsNone).assetInfo = [] ∧
    (optimizeAsync cfgUnavailable envOne (some ["stale"]) [("p/a.png", [1, 2])]
      optsNone).stateFileAfter = ["stale"] := by
  decide

/-- C1 (amended): when a CompressorUnavailable abort occurs, the final
persist call is skipped by the early return, so the state file keeps
exactly the contents it had right after the load (the pre-run mapping, or
the empty mapping just created); in-memory staleness evictions and hashes
finalized before the abort are NOT committed. -/
theorem c1_abort_skips_persist (cfg : RunCfg) (env : Env)
    (stateFile : Option AssetOptimizationState) (fs0 : FSt)
    (options : OptimizationOptions)
    (h : (optimizeAsync cfg env stateFile fs0 options).aborted = true) :
    (optimizeAsync cfg env stateFile fs0 options).stateFileAfter =
      loadedState stateFile := by
  rw [optimizeAsync_aborted] at h
  rw [optimizeAsync_stateFileAfter, h]
  rfl

/-- Witness for c1_abort_skips_persist at a concrete aborting run. -/
theorem c1_abort_skips_persist_witness :
    (optimizeAsync cfgUnavailable envOne (some ["stale"]) [("p/a.png", [1, 2])]
      optsNone).aborted = true ∧
    (optimizeAsync cfgUnavailable envOne (some ["stale"]) [("p/a.png", [1, 2])]
      optsNone).stateFileAfter = loadedState (some ["stale"]) :=
  ⟨by decide, c1_abort_skips_persist cfgUnavailable envOne (some ["stale"])
    [("p/a.png", [1, 2])] optsNone (by decide)⟩

/-! Claim C9. -/

/-- C9: when every image of the working set has its precomputed hash
already in the post-eviction state, the loop skips every asset before the
availability probe, so the probe is never called, the run cannot abort,
and the final commit writes the in-memory mapping. -/
theorem c9_lazy_probe (cfg : RunCfg) (env : Env)
    (stateFile : Option AssetOptimizationState) (fs0 : FSt)
    (options : OptimizationOptions)
    (h : ∀ f ∈ imagesOf env options,
      lookupHash (hashesMap cfg env fs0 options) f ∈
        evictedState cfg env stateFile fs0 options) :
    (optimizeAsync cfg env stateFile fs0 options).probeCalls = 0 ∧
    (optimizeAsync cfg env stateFile fs0 options).aborted = false ∧
    (optimizeAsync cfg env stateFile fs0 options).stateFileAfter =
      (optimizeAsync cfg env stateFile fs0 options).assetInfo := by
  have hloop : runLoop cfg env stateFile fs0 options =
      ({ fs := fs0, assetInfo := evictedState cfg env stateFile fs0 options,
         totalSaved := 0, compressorCalls := 0, probeCalls := 0 }, false) :=
    processImages_skip_all cfg (options.quality.getD 80) options.save
      (lookupHash (hashesMap cfg env fs0 options)) (imagesOf env options) _ h
  refine ⟨?_, ?_, ?_⟩
  · rw [optimizeAsync_probeCalls, hloop]
  · rw [optimizeAsync_aborted, hloop]
  · rw [optimizeAsync_stateFileAfter, optimizeAsync_assetInfo, hloop]
    rfl

/-- Witness for c9_lazy_probe: a run whose only candidate is already
finalized in the loaded state. -/
theorem c9_lazy_probe_witness :
    (∀ f ∈ imagesOf envOne optsNone,
      lookupHash (hashesMap cfgIdentity envOne [("p/a.png", [1, 2])] optsNone) f ∈
        evictedState cfgIdentity envOne (some [demoHash [1, 2]])
          [("p/a.png", [1, 2])] optsNone) ∧
    (optimizeAsync cfgIdentity envOne (some [demoHash [1, 2]])
      [("p/a.png", [1, 2])] optsNone).probeCalls = 0 ∧
    (optimizeAsync cfgIdentity envOne (some [demoHash [1, 2]])
      [("p/a.png", [1, 2])] optsNone).aborted = false ∧
    (optimizeAsync cfgIdentity envOne (some [demoHash [1, 2]])
      [("p/a.png", [1, 2])] optsNone).stateFileAfter =
      (optimizeAsync cfgIdentity envOne (some [demoHash [1, 2]])
        [("p/a.png", [1, 2])] optsNone).assetInfo :=
  ⟨by decide, c9_lazy_probe cfgIdentity envOne (some [demoHash [1, 2]])
    [("p/a.png", [1, 2])] optsNone (by decide)⟩

/-! Claim C8. -/

/-- C8: isProjectOptimized is a read-only check: it returns false when the
state file does not exist, otherwise true exactly when every selected
candidate hashes into the loaded mapping, and in both cases the state file
after the call is the state file before it (nothing is created or
written). -/
theorem c8_read_only_check (cfg : RunCfg) (env : Env) (fs : FSt)
    (options : OptimizationOptions) :
    (isProjectOptimized cfg env none fs options = (false, none)) ∧
    (∀ s : AssetOptimizationState,
      (isProjectOptimized cfg env (some s) fs options).2 = some s ∧
      ((isProjectOptimized cfg env (some s) fs options).1 = true ↔
        ∀ f ∈ selectedOf env options, calculateHash cfg.hashFn fs f ∈ s)) := by
  refine ⟨rfl, fun s => ⟨rfl, ?_⟩⟩
  show (selectedOf env options).all
      (fun file => decide (calculateHash cfg.hashFn fs file ∈ s)) = true ↔ _
  rw [List.all_eq_true]
  constructor
  · intro h f hf
    exact of_decide_eq_true (h f hf)
  · intro h f hf
    exact decide_eq_true (h f hf)

/-! Claim C7. -/

/-- C7: the content hash is a pure function of the file bytes: paths with
identical contents get identical digests (so they occupy a single cache
entry in the hash-keyed state); and a run in which every discovered
candidate hashes into the loaded state - exactly the situation after
renaming already-optimized files without changing bytes - performs no
compressor invocation and saves zero bytes. -/
theorem c7_content_hash :
    (∀ (hashFn : Content → String) (fs : FSt) (p1 p2 : AssetPath),
      FS.read fs p1 = FS.read fs p2 →
      calculateHash hashFn fs p1 = calculateHash hashFn fs p2) ∧
    (∀ (cfg : RunCfg) (env : Env) (stateFile : Option AssetOptimizationState)
      (fs0 : FSt) (options : OptimizationOptions),
      options.includePat = none → options.excludePat = none →
      (∀ f ∈ allFilesOf env options,
        cfg.hashFn (FS.readD fs0 f) ∈ loadedState stateFile) →
      (optimizeAsync cfg env stateFile fs0 options).compressorCalls = 0 ∧
      (optimizeAsync cfg env stateFile fs0 options).totalSaved = 0) := by
  constructor
  · intro hashFn fs p1 p2 h
    unfold calculateHash FS.readD
    rw [h]
  · intro cfg env stateFile fs0 options hinc hexc hknown
    have himages : imagesOf env options = allFilesOf env options := by
      simp [imagesOf, hinc, hexc]
    have hskipall : ∀ f ∈ imagesOf env options,
        lookupHash (hashesMap cfg env fs0 options) f ∈
          evictedState cfg env stateFile fs0 options := by
      intro f hf
      rw [himages] at hf
      rw [hashesMap_lookup cfg env fs0 options f hf]
      exact (mem_evictedState_iff cfg env stateFile fs0 options _).mpr
        ⟨hknown f hf, mem_liveHashes cfg env fs0 options f hf⟩
    have hloop : runLoop cfg env stateFile fs0 options =
        ({ fs := fs0, assetInfo := evictedState cfg env stateFile fs0 options,
           totalSaved := 0, compressorCalls := 0, probeCalls := 0 }, false) :=
      processImages_skip_all cfg (options.quality.getD 80) options.save
        (lookupHash (hashesMap cfg env fs0 options)) (imagesOf env options) _ hskipall
    constructor
    · rw [optimizeAsync_compressorCalls, hloop]
    · rw [optimizeAsync_totalSaved, hloop]

/-- Witness for c7_content_hash: two paths with the same bytes share a
hash, and the second run over a project whose single candidate is already
finalized does nothing. -/
theorem c7_content_hash_witness :
    (FS.read [("x/a.png", [3, 4]), ("y/b.png", [3, 4])] "x/a.png" =
      FS.read [("x/a.png", [3, 4]), ("y/b.png", [3, 4])] "y/b.png") ∧
    calculateHash demoHash [("x/a.png", [3, 4]), ("y/b.png", [3, 4])] "x/a.png" =
      calculateHash demoHash [("x/a.png", [3, 4]), ("y/b.png", [3, 4])] "y/b.png" ∧
    ((∀ f ∈ allFilesOf envOne optsNone,
      cfgIdentity.hashFn (FS.readD [("p/a.png", [1, 2])] f) ∈
        loadedState (some [demoHash [1, 2]])) ∧
    (optimizeAsync cfgIdentity envOne (some [demoHash [1, 2]])
      [("p/a.png", [1, 2])] optsNone).compressorCalls = 0 ∧
    (optimizeAsync cfgIdentity envOne (some [demoHash [1, 2]])
      [("p/a.png", [1, 2])] optsNone).totalSaved = 0) :=
  ⟨by decide,
    c7_content_hash.1 demoHash [("x/a.png", [3, 4]), ("y/b.png", [3, 4])]
      "x/a.png" "y/b.png" (by decide),
    by decide,
    c7_content_hash.2 cfgIdentity envOne (some [demoHash [1, 2]])
      [("p/a.png", [1, 2])] optsNone rfl rfl (by decide)⟩

/-! Claim C2. -/

/-- C2, counterexample: a run with save=true whose single candidate is
improved by a hash-changing compression commits the original hash as
well, although the only discovered candidate finishes the run with a
different content hash - the committed set is strictly larger than the
set of content hashes of discovered candidates confirmed optimal. -/
theorem c2_counterexample :
    (optimizeAsync cfgShrink envOne none [("p/a.png", [1, 2, 3])] optsSave).aborted
      = false ∧
    allFilesOf envOne optsSave = ["p/a.png"] ∧
    demoHash [1, 2, 3] ∈
      (optimizeAsync cfgShrink envOne none [("p/a.png", [1, 2, 3])]
        optsSave).stateFileAfter ∧
    demoHash (FS.readD
      (optimizeAsync cfgShrink envOne none [("p/a.png", [1, 2, 3])] optsSave).fs
      "p/a.png") ≠ demoHash [1, 2, 3] := by
  decide

/-- C2 (amended): for a completed run without filters and without the
save flag, the committed state is exactly the set of hashes of the final
bytes of the discovered candidates (confirmed either because compression
did not help or because the post-compression hash was recorded; with
save=true the original hashes of improved assets are additionally
retained, which the claim omits), and every loaded hash not backed by a
discovered file is deleted from the in-memory state before the per-asset
loop starts. -/
theorem c2_committed_state_exact (cfg : RunCfg) (env : Env)
    (stateFile : Option AssetOptimizationState) (fs0 : FSt)
    (options : OptimizationOptions)
    (havail : cfg.sharpAvailable = true)
    (hsave : options.save = false)
    (hinc : options.includePat = none)
    (hexc : options.excludePat = none)
    (hnodup : (allFilesOf env options).Nodup)
    (hback : ∀ f ∈ allFilesOf env options,
      createNewFilename f ∉ allFilesOf env options)
    (_hex : ∀ f ∈ allFilesOf env options, (FS.read fs0 f).isSome) :
    (optimizeAsync cfg env stateFile fs0 options).aborted = false ∧
    (∀ h : String,
      h ∈ (optimizeAsync cfg env stateFile fs0 options).stateFileAfter ↔
      ∃ f, f ∈ allFilesOf env options ∧
        cfg.hashFn (FS.readD (optimizeAsync cfg env stateFile fs0 options).fs f)
          = h) ∧
    (∀ h ∈ loadedState stateFile,
      (∀ f ∈ allFilesOf env options, cfg.hashFn (FS.readD fs0 f) ≠ h) →
      h ∉ evictedState cfg env stateFile fs0 options) := by
  have himages : imagesOf env options = allFilesOf env options := by
    simp [imagesOf, hinc, hexc]
  have hloopdef : runLoop cfg env stateFile fs0 options =
      processImages cfg (options.quality.getD 80) false
        (lookupHash (hashesMap cfg env fs0 options)) (allFilesOf env options)
        { fs := fs0, assetInfo := evictedState cfg env stateFile fs0 options,
          totalSaved := 0, compressorCalls := 0, probeCalls := 0 } := by
    rw [runLoop, himages, hsave]
  have hagree : ∀ f ∈ allFilesOf env options,
      lookupHash (hashesMap cfg env fs0 options) f =
        cfg.hashFn (FS.readD fs0 f) :=
    fun f hf => hashesMap_lookup cfg env fs0 options f hf
  obtain ⟨hab, hfin⟩ := processImages_complete cfg (options.quality.getD 80) false
    (lookupHash (hashesMap cfg env fs0 options)) (allFilesOf env options) havail
    hback (allFilesOf env options)
    { fs := fs0, assetInfo := evictedState cfg env stateFile fs0 options,
      totalSaved := 0, compressorCalls := 0, probeCalls := 0 }
    hnodup (fun _ hf => hf) hagree
  have hinv0 : ∀ h ∈ evictedState cfg env stateFile fs0 options,
      ∃ f, f ∈ allFilesOf env options ∧ cfg.hashFn (FS.readD fs0 f) = h := by
    intro h hh
    obtain ⟨_, hlive⟩ := (mem_evictedState_iff cfg env stateFile fs0 options h).mp hh
    exact List.mem_map.mp hlive
  have hsubset := processImages_exact cfg (options.quality.getD 80)
    (lookupHash (hashesMap cfg env fs0 options)) (allFilesOf env options) havail
    hback (allFilesOf env options)
    { fs := fs0, assetInfo := evictedState cfg env stateFile fs0 options,
      totalSaved := 0, compressorCalls := 0, probeCalls := 0 }
    hnodup (fun _ hf => hf) hagree hinv0
  refine ⟨?_, ?_, ?_⟩
  · rw [optimizeAsync_aborted, hloopdef]
    exact hab
  · intro h
    have hsfa : (optimizeAsync cfg env stateFile fs0 options).stateFileAfter =
        (processImages cfg (options.quality.getD 80) false
          (lookupHash (hashesMap cfg env fs0 options)) (allFilesOf env options)
          { fs := fs0, assetInfo := evictedState cfg env stateFile fs0 options,
            totalSaved := 0, compressorCalls := 0,
            probeCalls := 0 }).1.assetInfo := by
      rw [optimizeAsync_stateFileAfter, hloopdef, hab]
      rfl
    rw [hsfa, optimizeAsync_fs, hloopdef]
    constructor
    · exact fun hh => hsubset h hh
    · rintro ⟨f, hf, hfh⟩
      rw [← hfh]
      exact hfin f hf
  · intro h _hld hnot hcontr
    obtain ⟨_, hlive⟩ := (mem_evictedState_iff cfg env stateFile fs0 options h).mp
      hcontr
    obtain ⟨f, hf, hfh⟩ := List.mem_map.mp hlive
    exact hnot f hf hfh

/-- Witness for c2_committed_state_exact at a concrete improving run. -/
theorem c2_committed_state_exact_witness :
    ((allFilesOf envOne optsNone).Nodup ∧
     (∀ f ∈ allFilesOf envOne optsNone,
       createNewFilename f ∉ allFilesOf envOne optsNone) ∧
     (∀ f ∈ allFilesOf envOne optsNone,
       (FS.read [("p/a.png", [1, 2, 3])] f).isSome)) ∧
    ((optimizeAsync cfgShrink envOne none [("p/a.png", [1, 2, 3])]
        optsNone).aborted = false ∧
    (∀ h : String,
      h ∈ (optimizeAsync cfgShrink envOne none [("p/a.png", [1, 2, 3])]
        optsNone).stateFileAfter ↔
      ∃ f, f ∈ allFilesOf envOne optsNone ∧
        cfgShrink.hashFn (FS.readD
          (optimizeAsync cfgShrink envOne none [("p/a.png", [1, 2, 3])]
            optsNone).fs f) = h) ∧
    (∀ h ∈ loadedState (none : Option AssetOptimizationState),
      (∀ f ∈ allFilesOf envOne optsNone,
        cfgShrink.hashFn (FS.readD [("p/a.png", [1, 2, 3])] f) ≠ h) →
      h ∉ evictedState cfgShrink envOne none [("p/a.png", [1, 2, 3])] optsNone)) :=
  ⟨⟨by decide, by decide, by decide⟩,
    c2_committed_state_exact cfgShrink envOne none [("p/a.png", [1, 2, 3])]
      optsNone rfl rfl rfl rfl (by decide) (by decide) (by decide)⟩

/-! Claim C3. -/

/-- C3, counterexample: with assetBundlePatterns discovering only `a.png`
but an include pattern selecting `b.png`, the working set iterates a file
that was never hashed, so its state key is the undefined-coerced string;
the staleness pass of the next run evicts that key, and the second run on
the unchanged tree invokes the compressor again - the claim of zero
compressor invocations on the second run fails. -/
theorem c3_counterexample :
    (optimizeAsync cfgIdentity envTwo
      (some ((optimizeAsync cfgIdentity envTwo none
        [("p/a.png", [0]), ("p/b.png", [5, 5])] optsIncB).stateFileAfter))
      ((optimizeAsync cfgIdentity envTwo none
        [("p/a.png", [0]), ("p/b.png", [5, 5])] optsIncB).fs)
      optsIncB).aborted = false ∧
    ¬ ((optimizeAsync cfgIdentity envTwo
      (some ((optimizeAsync cfgIdentity envTwo none
        [("p/a.png", [0]), ("p/b.png", [5, 5])] optsIncB).stateFileAfter))
      ((optimizeAsync cfgIdentity envTwo none
        [("p/a.png", [0]), ("p/b.png", [5, 5])] optsIncB).fs)
      optsIncB).compressorCalls = 0) := by
  decide

/-- C3 (amended): running optimizeAsync twice in succession with the same
configuration is idempotent provided every file of the working set is a
discovered candidate (true whenever the include pattern only matches
discovered files, in particular when no filters are given): the second
run performs zero compressor invocations, zero availability probes, and
reports zero bytes saved. -/
theorem c3_second_run_idempotent (cfg : RunCfg) (env : Env)
    (stateFile : Option AssetOptimizationState) (fs0 : FSt)
    (options : OptimizationOptions)
    (havail : cfg.sharpAvailable = true)
    (hsub : ∀ f ∈ imagesOf env options, f ∈ allFilesOf env options)
    (hnodup : (imagesOf env options).Nodup)
    (hback : ∀ f ∈ imagesOf env options,
      createNewFilename f ∉ imagesOf env options)
    (_hex : ∀ f ∈ allFilesOf env options, (FS.read fs0 f).isSome) :
    (optimizeAsync cfg env
      (some (optimizeAsync cfg env stateFile fs0 options).stateFileAfter)
      (optimizeAsync cfg env stateFile fs0 options).fs
      options).compressorCalls = 0 ∧
    (optimizeAsync cfg env
      (some (optimizeAsync cfg env stateFile fs0 options).stateFileAfter)
      (optimizeAsync cfg env stateFile fs0 options).fs
      options).totalSaved = 0 ∧
    (optimizeAsync cfg env
      (some (optimizeAsync cfg env stateFile fs0 options).stateFileAfter)
      (optimizeAsync cfg env stateFile fs0 options).fs
      options).probeCalls = 0 := by
  have hagree : ∀ f ∈ imagesOf env options,
      lookupHash (hashesMap cfg env fs0 options) f =
        cfg.hashFn (FS.readD fs0 f) :=
    fun f hf => hashesMap_lookup cfg env fs0 options f (hsub f hf)
  obtain ⟨hab, hfin⟩ := processImages_complete cfg (options.quality.getD 80)
    options.save (lookupHash (hashesMap cfg env fs0 options))
    (imagesOf env options) havail hback (imagesOf env options)
    { fs := fs0, assetInfo := evictedState cfg env stateFile fs0 options,
      totalSaved := 0, compressorCalls := 0, probeCalls := 0 }
    hnodup (fun _ hf => hf) hagree
  have hr1sfa : (optimizeAsync cfg env stateFile fs0 options).stateFileAfter =
      (runLoop cfg env stateFile fs0 options).1.assetInfo := by
    rw [optimizeAsync_stateFileAfter]
    rw [show (runLoop cfg env stateFile fs0 options).2 = false from hab]
    rfl
  have hr1fs : (optimizeAsync cfg env stateFile fs0 options).fs =
      (runLoop cfg env stateFile fs0 options).1.fs :=
    optimizeAsync_fs cfg env stateFile fs0 options
  have hskipall : ∀ f ∈ imagesOf env options,
      lookupHash (hashesMap cfg env
        (optimizeAsync cfg env stateFile fs0 options).fs options) f ∈
      evictedState cfg env
        (some (optimizeAsync cfg env stateFile fs0 options).stateFileAfter)
        (optimizeAsync cfg env stateFile fs0 options).fs options := by
    intro f hf
    rw [hashesMap_lookup cfg env _ options f (hsub f hf)]
    refine (mem_evictedState_iff cfg env _ _ options _).mpr ⟨?_, ?_⟩
    · show cfg.hashFn _ ∈ loadedState
        (some (optimizeAsync cfg env stateFile fs0 options).stateFileAfter)
      rw [hr1sfa, hr1fs]
      exact hfin f hf
    · exact mem_liveHashes cfg env _ options f (hsub f hf)
  have hloop2 : runLoop cfg env
      (some (optimizeAsync cfg env stateFile fs0 options).stateFileAfter)
      (optimizeAsync cfg env stateFile fs0 options).fs options =
      ({ fs := (optimizeAsync cfg env stateFile fs0 options).fs,
         assetInfo := evictedState cfg env
           (some (optimizeAsync cfg env stateFile fs0 options).stateFileAfter)
           (optimizeAsync cfg env stateFile fs0 options).fs options,
         totalSaved := 0, compressorCalls := 0, probeCalls := 0 }, false) :=
    processImages_skip_all cfg (options.quality.getD 80) options.save
      (lookupHash (hashesMap cfg env
        (optimizeAsync cfg env stateFile fs0 options).fs options))
      (imagesOf env options) _ hskipall
  refine ⟨?_, ?_, ?_⟩
  · rw [optimizeAsync_compressorCalls, hloop2]
  · rw [optimizeAsync_totalSaved, hloop2]
  · rw [optimizeAsync_probeCalls, hloop2]

/-- Witness for c3_second_run_idempotent: a fresh one-file project whose
asset shrinks on the first run; the second run does nothing. -/
theorem c3_second_run_idempotent_witness :
    ((∀ f ∈ imagesOf envOne optsNone, f ∈ allFilesOf envOne optsNone) ∧
     (imagesOf envOne optsNone).Nodup ∧
     (∀ f ∈ imagesOf envOne optsNone,
       createNewFilename f ∉ imagesOf envOne optsNone) ∧
     (∀ f ∈ allFilesOf envOne optsNone,
       (FS.read [("p/a.png", [1, 2, 3])] f).isSome)) ∧
    ((optimizeAsync cfgShrink envOne
      (some (optimizeAsync cfgShrink envOne none [("p/a.png", [1, 2, 3])]
        optsNone).stateFileAfter)
      (optimizeAsync cfgShrink envOne none [("p/a.png", [1, 2, 3])]
        optsNone).fs optsNone).compressorCalls = 0 ∧
    (optimizeAsync cfgShrink envOne
      (some (optimizeAsync cfgShrink envOne none [("p/a.png", [1, 2, 3])]
        optsNone).stateFileAfter)
      (optimizeAsync cfgShrink envOne none [("p/a.png", [1, 2, 3])]
        optsNone).fs optsNone).totalSaved = 0 ∧
    (optimizeAsync cfgShrink envOne
      (some (optimizeAsync cfgShrink envOne none [("p/a.png", [1, 2, 3])]
        optsNone).stateFileAfter)
      (optimizeAsync cfgShrink envOne none [("p/a.png", [1, 2, 3])]
        optsNone).fs optsNone).probeCalls = 0) :=
  ⟨⟨by decide, by decide, by decide, by decide⟩,
    c3_second_run_idempotent cfgShrink envOne none [("p/a.png", [1, 2, 3])]
      optsNone rfl (by decide) (by decide) (by decide) (by decide)⟩

/-- Specification of an improving step, for any value of the save flag:
no abort, the image now holds the compressed bytes, and the recomputed
hash is recorded. -/
theorem stepAsset_improved_spec (cfg : RunCfg) (quality : Nat) (save : Bool)
    (hashOf : AssetPath → String) (image : AssetPath) (st : LoopState)
    (h1 : hashOf image ∉ st.assetInfo) (h2 : cfg.sharpAvailable = true)
    (himp : ((FS.readD st.fs image).length : Int) -
      ((cfg.sharp quality (FS.readD st.fs image)).length : Int) > 0)
    (hne : image ≠ createNewFilename image) :
    (stepAsset cfg quality save hashOf image st).2 = false ∧
    FS.readD (stepAsset cfg quality save hashOf image st).1.fs image =
      cfg.sharp quality (FS.readD st.fs image) ∧
    cfg.hashFn (cfg.sharp quality (FS.readD st.fs image)) ∈
      (stepAsset cfg quality save hashOf image st).1.assetInfo := by
  have hr1 : FS.readD (FS.remove
      (FS.write (FS.move st.fs image (createNewFilename image)) image
        (cfg.sharp quality (FS.readD st.fs image)))
      (createNewFilename image)) image =
      cfg.sharp quality (FS.readD st.fs image) := by
    unfold FS.readD
    rw [FS.read_remove_ne _ _ _ hne, FS.read_write_self]
    rfl
  have hr2 : FS.readD
      (FS.write (FS.move st.fs image (createNewFilename image)) image
        (cfg.sharp quality (FS.readD st.fs image))) image =
      cfg.sharp quality (FS.readD st.fs image) := by
    unfold FS.readD
    rw [FS.read_write_self]
    rfl
  cases save with
  | false =>
    rw [stepAsset_improved_nosave cfg quality hashOf image st h1 h2 himp]
    exact ⟨rfl, hr1, self_mem_insertHash _ _⟩
  | true =>
    by_cases heqh : hashOf image = cfg.hashFn (cfg.sharp quality (FS.readD st.fs image))
    · rw [stepAsset_improved_save_eq cfg quality hashOf image st h1 h2 himp heqh]
      exact ⟨rfl, hr1, self_mem_insertHash _ _⟩
    · rw [stepAsset_improved_save_ne cfg quality hashOf image st h1 h2 himp heqh]
      exact ⟨rfl, hr2, mem_insertHash_of_mem _ _ _ (self_mem_insertHash _ _)⟩

/-! Claim C4. -/

/-- C4: a candidate that reaches the compressed state (fresh hash,
available compressor) is replaced by the compressed bytes and the
recomputed hash of those bytes is recorded in state when the size
strictly decreased; otherwise the file on disk is untouched, the original
content hash is recorded, and the hash of the bytes now on disk is in
state, which is what makes future runs skip the asset before invoking the
compressor.  The conclusions hold at the end of the whole remaining loop,
whose later iterations do not touch this asset. -/
theorem c4_improvement_policy (cfg : RunCfg) (quality : Nat) (save : Bool)
    (hashOf : AssetPath → String) (f : AssetPath) (rest : List AssetPath)
    (st : LoopState)
    (havail : cfg.sharpAvailable = true)
    (hnew : hashOf f ∉ st.assetInfo)
    (hagree : hashOf f = cfg.hashFn (FS.readD st.fs f))
    (hneself : f ≠ createNewFilename f)
    (hrestf : f ∉ rest)
    (hrestb : ∀ g ∈ rest, createNewFilename g ≠ f) :
    (((FS.readD st.fs f).length : Int) -
        ((cfg.sharp quality (FS.readD st.fs f)).length : Int) > 0 →
      FS.readD (processImages cfg quality save hashOf (f :: rest) st).1.fs f =
        cfg.sharp quality (FS.readD st.fs f) ∧
      cfg.hashFn (cfg.sharp quality (FS.readD st.fs f)) ∈
        (processImages cfg quality save hashOf (f :: rest) st).1.assetInfo) ∧
    (((FS.readD st.fs f).length : Int) -
        ((cfg.sharp quality (FS.readD st.fs f)).length : Int) ≤ 0 →
      FS.read (processImages cfg quality save hashOf (f :: rest) st).1.fs f =
        FS.read st.fs f ∧
      cfg.hashFn (FS.readD st.fs f) ∈
        (processImages cfg quality save hashOf (f :: rest) st).1.assetInfo ∧
      calculateHash cfg.hashFn
          (processImages cfg quality save hashOf (f :: rest) st).1.fs f ∈
        (processImages cfg quality save hashOf (f :: rest) st).1.assetInfo) := by
  constructor
  · intro himp
    obtain ⟨hstep2, hreads, hmem⟩ :=
      stepAsset_improved_spec cfg quality save hashOf f st hnew havail himp hneself
    rw [processImages_cons, if_neg (by rw [hstep2]; exact Bool.false_ne_true)]
    constructor
    · rw [processImages_readD_preserved cfg quality save hashOf rest _ f hrestf hrestb]
      exact hreads
    · exact processImages_assetInfo_mono cfg quality save hashOf rest _ _ hmem
  · intro hle
    have himp : ¬ (((FS.readD st.fs f).length : Int) -
        ((cfg.sharp quality (FS.readD st.fs f)).length : Int) > 0) := by omega
    have hshape := stepAsset_notImproved cfg quality save hashOf f st hnew havail himp
    rw [processImages_cons, hshape]
    simp only [if_neg Bool.false_ne_true]
    have hpres := processImages_read_preserved cfg quality save hashOf rest
      { st with
          probeCalls := st.probeCalls + 1,
          compressorCalls := st.compressorCalls + 1,
          assetInfo := insertHash st.assetInfo (hashOf f) } f hrestf hrestb
    have hmem0 : cfg.hashFn (FS.readD st.fs f) ∈ insertHash st.assetInfo (hashOf f) := by
      rw [← hagree]
      exact self_mem_insertHash _ _
    refine ⟨hpres, ?_, ?_⟩
    · exact processImages_assetInfo_mono cfg quality save hashOf rest _ _ hmem0
    · have hrd : FS.readD (processImages cfg quality save hashOf rest
          { st with
              probeCalls := st.probeCalls + 1,
              compressorCalls := st.compressorCalls + 1,
              assetInfo := insertHash st.assetInfo (hashOf f) }).1.fs f =
          FS.readD st.fs f := by
        unfold FS.readD
        rw [hpres]
      unfold calculateHash
      rw [hrd]
      exact processImages_assetInfo_mono cfg quality save hashOf rest _ _ hmem0

/-- Witness for c4_improvement_policy at a shrinking one-asset loop. -/
theorem c4_improvement_policy_witness :
    ((lookupHash (hashesMap cfgShrink envOne [("p/a.png", [1, 2, 3])] optsNone)
        "p/a.png" ∉ ([] : AssetOptimizationState)) ∧
     lookupHash (hashesMap cfgShrink envOne [("p/a.png", [1, 2, 3])] optsNone)
        "p/a.png" =
       cfgShrink.hashFn (FS.readD
         (LoopState.fs { fs := [("p/a.png", [1, 2, 3])], assetInfo := [],
                         totalSaved := 0, compressorCalls := 0, probeCalls := 0 })
         "p/a.png")) ∧
    ((((FS.readD
        (LoopState.fs { fs := [("p/a.png", [1, 2, 3])], assetInfo := [],
                        totalSaved := 0, compressorCalls := 0, probeCalls := 0 })
        "p/a.png").length : Int) -
        ((cfgShrink.sharp 80 (FS.readD
          (LoopState.fs { fs := [("p/a.png", [1, 2, 3])], assetInfo := [],
                          totalSaved := 0, compressorCalls := 0, probeCalls := 0 })
          "p/a.png")).length : Int) > 0 →
      FS.readD (processImages cfgShrink 80 false
        (lookupHash (hashesMap cfgShrink envOne [("p/a.png", [1, 2, 3])] optsNone))
        ["p/a.png"]
        { fs := [("p/a.png", [1, 2, 3])], assetInfo := [],
          totalSaved := 0, compressorCalls := 0, probeCalls := 0 }).1.fs "p/a.png" =
        cfgShrink.sharp 80 (FS.readD
          (LoopState.fs { fs := [("p/a.png", [1, 2, 3])], assetInfo := [],
                          totalSaved := 0, compressorCalls := 0, probeCalls := 0 })
          "p/a.png") ∧
      cfgShrink.hashFn (cfgShrink.sharp 80 (FS.readD
        (LoopState.fs { fs := [("p/a.png", [1, 2, 3])], assetInfo := [],
                        totalSaved := 0, compressorCalls := 0, probeCalls := 0 })
        "p/a.png")) ∈
        (processImages cfgShrink 80 false
          (lookupHash (hashesMap cfgShrink envOne [("p/a.png", [1, 2, 3])] optsNone))
          ["p/a.png"]
          { fs := [("p/a.png", [1, 2, 3])], assetInfo := [],
            totalSaved := 0, compressorCalls := 0,
            probeCalls := 0 }).1.assetInfo) ∧
    (((FS.readD
        (LoopState.fs { fs := [("p/a.png", [1, 2, 3])], assetInfo := [],
                        totalSaved := 0, compressorCalls := 0, probeCalls := 0 })
        "p/a.png").length : Int) -
        ((cfgShrink.sharp 80 (FS.readD
          (LoopState.fs { fs := [("p/a.png", [1, 2, 3])], assetInfo := [],
                          totalSaved := 0, compressorCalls := 0, probeCalls := 0 })
          "p/a.png")).length : Int) ≤ 0 →
      FS.read (processImages cfgShrink 80 false
        (lookupHash (hashesMap cfgShrink envOne [("p/a.png", [1, 2, 3])] optsNone))
        ["p/a.png"]
        { fs := [("p/a.png", [1, 2, 3])], assetInfo := [],
          totalSaved := 0, compressorCalls := 0, probeCalls := 0 }).1.fs "p/a.png" =
        FS.read
          (LoopState.fs { fs := [("p/a.png", [1, 2, 3])], assetInfo := [],
                          totalSaved := 0, compressorCalls := 0, probeCalls := 0 })
          "p/a.png" ∧
      cfgShrink.hashFn (FS.readD
        (LoopState.fs { fs := [("p/a.png", [1, 2, 3])], assetInfo := [],
                        totalSaved := 0, compressorCalls := 0, probeCalls := 0 })
        "p/a.png") ∈
        (processImages cfgShrink 80 false
          (lookupHash (hashesMap cfgShrink envOne [("p/a.png", [1, 2, 3])] optsNone))
          ["p/a.png"]
          { fs := [("p/a.png", [1, 2, 3])], assetInfo := [],
            totalSaved := 0, compressorCalls := 0,
            probeCalls := 0 }).1.assetInfo ∧
      calculateHash cfgShrink.hashFn
          (processImages cfgShrink 80 false
            (lookupHash (hashesMap cfgShrink envOne [("p/a.png", [1, 2, 3])] optsNone))
            ["p/a.png"]
            { fs := [("p/a.png", [1, 2, 3])], assetInfo := [],
              totalSaved := 0, compressorCalls := 0,
              probeCalls := 0 }).1.fs "p/a.png" ∈
        (processImages cfgShrink 80 false
          (lookupHash (hashesMap cfgShrink envOne [("p/a.png", [1, 2, 3])] optsNone))
          ["p/a.png"]
          { fs := [("p/a.png", [1, 2, 3])], assetInfo := [],
            totalSaved := 0, compressorCalls := 0,
            probeCalls := 0 }).1.assetInfo)) :=
  ⟨⟨by decide, by decide⟩,
    c4_improvement_policy cfgShrink 80 false
      (lookupHash (hashesMap cfgShrink envOne [("p/a.png", [1, 2, 3])] optsNone))
      "p/a.png" []
      { fs := [("p/a.png", [1, 2, 3])], assetInfo := [],
        totalSaved := 0, compressorCalls := 0, probeCalls := 0 }
      rfl (by decide) (by decide) (by decide) (by decide) (by decide)⟩

/-! Claim C5. -/

/-- C5: for an improving compression whose recomputed hash differs from
the original hash, a run with the save flag leaves the backup file (the
name with `.orig` inserted) holding exactly the pre-run original bytes
and additionally finalizes the original hash in state, while a run
without the save flag deletes the backup so that no backup file remains -
and later iterations of the loop never touch the backup path. -/
theorem c5_save_backup (cfg : RunCfg) (quality : Nat)
    (hashOf : AssetPath → String) (f : AssetPath) (rest : List AssetPath)
    (st : LoopState) (c : Content)
    (havail : cfg.sharpAvailable = true)
    (hnew : hashOf f ∉ st.assetInfo)
    (horig : FS.read st.fs f = some c)
    (himp : ((c.length : Int) - ((cfg.sharp quality c).length : Int) > 0))
    (hne : hashOf f ≠ cfg.hashFn (cfg.sharp quality c))
    (hneself : f ≠ createNewFilename f)
    (hrest1 : createNewFilename f ∉ rest)
    (hrest2 : ∀ g ∈ rest, createNewFilename g ≠ createNewFilename f) :
    (FS.read (processImages cfg quality true hashOf (f :: rest) st).1.fs
        (createNewFilename f) = some c ∧
      hashOf f ∈ (processImages cfg quality true hashOf (f :: rest) st).1.assetInfo) ∧
    FS.read (processImages cfg quality false hashOf (f :: rest) st).1.fs
      (createNewFilename f) = none := by
  have hc : FS.readD st.fs f = c := by
    unfold FS.readD
    rw [horig]
    rfl
  have himp' : ((FS.readD st.fs f).length : Int) -
      ((cfg.sharp quality (FS.readD st.fs f)).length : Int) > 0 := by
    rw [hc]
    exact himp
  have hne' : hashOf f ≠ cfg.hashFn (cfg.sharp quality (FS.readD st.fs f)) := by
    rw [hc]
    exact hne
  constructor
  · have hshape := stepAsset_improved_save_ne cfg quality hashOf f st hnew havail
      himp' hne'
    rw [processImages_cons, hshape]
    simp only [if_neg Bool.false_ne_true]
    constructor
    · rw [processImages_read_preserved cfg quality true hashOf rest _
        (createNewFilename f) hrest1 hrest2]
      show FS.read
        (FS.write (FS.move st.fs f (createNewFilename f)) f
          (cfg.sharp quality (FS.readD st.fs f))) (createNewFilename f) = some c
      rw [FS.read_write_ne _ _ _ _ (fun hcontr => hneself hcontr.symm),
        FS.read_move_dst st.fs f (createNewFilename f) c horig]
    · exact processImages_assetInfo_mono cfg quality true hashOf rest _ _
        (self_mem_insertHash _ _)
  · have hshape := stepAsset_improved_nosave cfg quality hashOf f st hnew havail himp'
    rw [processImages_cons, hshape]
    simp only [if_neg Bool.false_ne_true]
    rw [processImages_read_preserved cfg quality false hashOf rest _
      (createNewFilename f) hrest1 hrest2]
    show FS.read (FS.remove
      (FS.write (FS.move st.fs f (createNewFilename f)) f
        (cfg.sharp quality (FS.readD st.fs f)))
      (createNewFilename f)) (createNewFilename f) = none
    exact FS.read_remove_self _ _

/-- Witness for c5_save_backup at a shrinking one-asset loop. -/
theorem c5_save_backup_witness :
    ((lookupHash (hashesMap cfgShrink envOne [("p/a.png", [1, 2, 3])] optsNone)
        "p/a.png" ∉ ([] : AssetOptimizationState)) ∧
      FS.read
        (LoopState.fs { fs := [("p/a.png", [1, 2, 3])], assetInfo := [],
                        totalSaved := 0, compressorCalls := 0, probeCalls := 0 })
        "p/a.png" = some [1, 2, 3] ∧
      (([1, 2, 3].length : Int) -
        ((cfgShrink.sharp 80 [1, 2, 3]).length : Int) > 0) ∧
      lookupHash (hashesMap cfgShrink envOne [("p/a.png", [1, 2, 3])] optsNone)
        "p/a.png" ≠ cfgShrink.hashFn (cfgShrink.sharp 80 [1, 2, 3])) ∧
    ((FS.read (processImages cfgShrink 80 true
        (lookupHash (hashesMap cfgShrink envOne [("p/a.png", [1, 2, 3])] optsNone))
        ["p/a.png"]
        { fs := [("p/a.png", [1, 2, 3])], assetInfo := [],
          totalSaved := 0, compressorCalls := 0, probeCalls := 0 }).1.fs
        (createNewFilename "p/a.png") = some [1, 2, 3] ∧
      lookupHash (hashesMap cfgShrink envOne [("p/a.png", [1, 2, 3])] optsNone)
        "p/a.png" ∈
        (processImages cfgShrink 80 true
          (lookupHash (hashesMap cfgShrink envOne [("p/a.png", [1, 2, 3])] optsNone))
          ["p/a.png"]
          { fs := [("p/a.png", [1, 2, 3])], assetInfo := [],
            totalSaved := 0, compressorCalls := 0,
            probeCalls := 0 }).1.assetInfo) ∧
    FS.read (processImages cfgShrink 80 false
      (lookupHash (hashesMap cfgShrink envOne [("p/a.png", [1, 2, 3])] optsNone))
      ["p/a.png"]
      { fs := [("p/a.png", [1, 2, 3])], assetInfo := [],
        totalSaved := 0, compressorCalls := 0, probeCalls := 0 }).1.fs
      (createNewFilename "p/a.png") = none) :=
  ⟨⟨by decide, by decide, by decide, by decide⟩,
    c5_save_backup cfgShrink 80
      (lookupHash (hashesMap cfgShrink envOne [("p/a.png", [1, 2, 3])] optsNone))
      "p/a.png" []
      { fs := [("p/a.png", [1, 2, 3])], assetInfo := [],
        totalSaved := 0, compressorCalls := 0, probeCalls := 0 }
      [1, 2, 3] rfl (by decide) (by decide) (by decide) (by decide) (by decide)
      (by decide) (by decide)⟩

/-! Claim C10. -/

/-- C10, counterexample: the dotfile candidate `a/.png` passes the image
filter, but node parse treats its whole basename as the name with an
empty extension, so the backup name is `a/.png.orig`, which does NOT keep
the extension and is not an image candidate of later runs. -/
theorem c10_counterexample :
    isImageFile (lowerStr "a/.png") = true ∧
    createNewFilename "a/.png" = "a/.png.orig" ∧
    isImageFile (lowerStr (createNewFilename "a/.png")) = false := by
  refine ⟨by decide, ?_, by decide⟩
  rfl

/-- C10 (amended): for every image path whose parsed extension is
nonempty (every image path except dotfiles such as `.png`, whose parse
has an empty extension), the backup name keeps the extension and hence
passes the image filter of later discoveries; and when a kept backup is
produced (save flag, improving, hash-changing compression), the backup
holds the original bytes, whose content hash is exactly the finalized
original hash, so the skip check of a later run succeeds on the backup. -/
theorem c10_backup_is_candidate (cfg : RunCfg) (quality : Nat)
    (hashOf : AssetPath → String) (f : AssetPath) (rest : List AssetPath)
    (st : LoopState) (c : Content)
    (himage : isImageFile (lowerStr f) = true)
    (hext : (pathParse f).ext ≠ "")
    (havail : cfg.sharpAvailable = true)
    (hnew : hashOf f ∉ st.assetInfo)
    (horig : FS.read st.fs f = some c)
    (himp : ((c.length : Int) - ((cfg.sharp quality c).length : Int) > 0))
    (hne : hashOf f ≠ cfg.hashFn (cfg.sharp quality c))
    (hagree : hashOf f = cfg.hashFn c)
    (hneself : f ≠ createNewFilename f)
    (hrest1 : createNewFilename f ∉ rest)
    (hrest2 : ∀ g ∈ rest, createNewFilename g ≠ createNewFilename f) :
    isImageFile (lowerStr (createNewFilename f)) = true ∧
    FS.read (processImages cfg quality true hashOf (f :: rest) st).1.fs
      (createNewFilename f) = some c ∧
    calculateHash cfg.hashFn
        (processImages cfg quality true hashOf (f :: rest) st).1.fs
        (createNewFilename f) ∈
      (processImages cfg quality true hashOf (f :: rest) st).1.assetInfo := by
  have hc : FS.readD st.fs f = c := by
    unfold FS.readD
    rw [horig]
    rfl
  have himp' : ((FS.readD st.fs f).length : Int) -
      ((cfg.sharp quality (FS.readD st.fs f)).length : Int) > 0 := by
    rw [hc]
    exact himp
  have hne' : hashOf f ≠ cfg.hashFn (cfg.sharp quality (FS.readD st.fs f)) := by
    rw [hc]
    exact hne
  have hshape := stepAsset_improved_save_ne cfg quality hashOf f st hnew havail
    himp' hne'
  have hbackup : FS.read (processImages cfg quality true hashOf (f :: rest) st).1.fs
      (createNewFilename f) = some c := by
    rw [processImages_cons, hshape]
    simp only [if_neg Bool.false_ne_true]
    rw [processImages_read_preserved cfg quality true hashOf rest _
      (createNewFilename f) hrest1 hrest2]
    show FS.read
      (FS.write (FS.move st.fs f (createNewFilename f)) f
        (cfg.sharp quality (FS.readD st.fs f))) (createNewFilename f) = some c
    rw [FS.read_write_ne _ _ _ _ (fun hcontr => hneself hcontr.symm),
      FS.read_move_dst st.fs f (createNewFilename f) c horig]
  refine ⟨createNewFilename_keeps_image_ext f himage hext, hbackup, ?_⟩
  have hch : calculateHash cfg.hashFn
      (processImages cfg quality true hashOf (f :: rest) st).1.fs
      (createNewFilename f) = hashOf f := by
    unfold calculateHash FS.readD
    rw [hbackup]
    exact (hagree).symm
  rw [hch, processImages_cons, hshape]
  simp only [if_neg Bool.false_ne_true]
  exact processImages_assetInfo_mono cfg quality true hashOf rest _ _
    (self_mem_insertHash _ _)

/-- Witness for c10_backup_is_candidate at a shrinking one-asset loop. -/
theorem c10_backup_is_candidate_witness :
    (isImageFile (lowerStr "p/a.png") = true ∧
      (pathParse "p/a.png").ext ≠ "" ∧
      (lookupHash (hashesMap cfgShrink envOne [("p/a.png", [1, 2, 3])] optsNone)
        "p/a.png" ∉ ([] : AssetOptimizationState)) ∧
      lookupHash (hashesMap cfgShrink envOne [("p/a.png", [1, 2, 3])] optsNone)
        "p/a.png" = cfgShrink.hashFn [1, 2, 3]) ∧
    (isImageFile (lowerStr (createNewFilename "p/a.png")) = true ∧
     FS.read (processImages cfgShrink 80 true
        (lookupHash (hashesMap cfgShrink envOne [("p/a.png", [1, 2, 3])] optsNone))
        ["p/a.png"]
        { fs := [("p/a.png", [1, 2, 3])], assetInfo := [],
          totalSaved := 0, compressorCalls := 0, probeCalls := 0 }).1.fs
        (createNewFilename "p/a.png") = some [1, 2, 3] ∧
     calculateHash cfgShrink.hashFn
        (processImages cfgShrink 80 true
          (lookupHash (hashesMap cfgShrink envOne [("p/a.png", [1, 2, 3])] optsNone))
          ["p/a.png"]
          { fs := [("p/a.png", [1, 2, 3])], assetInfo := [],
            totalSaved := 0, compressorCalls := 0, probeCalls := 0 }).1.fs
        (createNewFilename "p/a.png") ∈
      (processImages cfgShrink 80 true
        (lookupHash (hashesMap cfgShrink envOne [("p/a.png", [1, 2, 3])] optsNone))
        ["p/a.png"]
        { fs := [("p/a.png", [1, 2, 3])], assetInfo := [],
          totalSaved := 0, compressorCalls := 0,
          probeCalls := 0 }).1.assetInfo) :=
  ⟨⟨by decide, by decide, by decide, by decide⟩,
    c10_backup_is_candidate cfgShrink 80
      (lookupHash (hashesMap cfgShrink envOne [("p/a.png", [1, 2, 3])] optsNone))
      "p/a.png" []
      { fs := [("p/a.png", [1, 2, 3])], assetInfo := [],
        totalSaved := 0, compressorCalls := 0, probeCalls := 0 }
      [1, 2, 3] (by decide) (by decide) rfl (by decide) (by decide) (by decide)
      (by decide) (by decide) (by decide) (by decide) (by decide)⟩

/-! Claim C6. -/

/-- C6, counterexample: with assetBundlePatterns discovering only `a.png`
and an include pattern matching only `b.png`, the selected files contain
a file that is not among the discovered candidates at all - selectedFiles
is not the subset of allFiles the claim describes. -/
theorem c6_counterexample :
    "p/b.png" ∈ selectedOf envTwo optsIncB ∧
    "p/b.png" ∉ allFilesOf envTwo optsIncB := by
  decide

/-- C6 (amended): allFiles are exactly the discovered files (prefixed
with the project directory) whose lowercased name has a supported image
extension, regardless of filters; and provided the include pattern only
matches discovered files (the include glob runs project-wide in the
source, so this can fail otherwise), selectedFiles are exactly the
discovered image files that pass the include filter and are not matched
by the exclude pattern. -/
theorem c6_filters (env : Env) (options : OptimizationOptions) :
    (∀ x, x ∈ allFilesOf env options ↔
      ((∃ f ∈ discoveredFiles env, withProjectDir env.projectDir f = x) ∧
        isImageFile (lowerStr x) = true)) ∧
    ((∀ pat, options.includePat = some pat →
        ∀ f ∈ globSync env pat, f ∈ discoveredFiles env) →
      ∀ x, x ∈ selectedOf env options ↔
        ((∃ f, f ∈ discoveredFiles env ∧ passesInclude env options f ∧
          passesExclude env options f ∧ withProjectDir env.projectDir f = x) ∧
          isImageFile (lowerStr x) = true)) := by
  constructor
  · intro x
    show x ∈ filterImages (discoveredFiles env) env.projectDir ↔ _
    exact mem_filterImages (discoveredFiles env) env.projectDir x
  · intro hinc x
    exact mem_selectedOf env options hinc x

/-- Witness for c6_filters at the filter example of the specification:
include `*.png`, exclude `logo.png` over logo, icon and photo. -/
theorem c6_filters_witness :
    ((∀ pat, optsLogo.includePat = some pat →
        ∀ f ∈ globSync envLogo pat, f ∈ discoveredFiles envLogo) ∧
     allFilesOf envLogo optsLogo =
        ["p/logo.png", "p/icon.png", "p/photo.jpg"] ∧
     selectedOf envLogo optsLogo = ["p/icon.png"]) ∧
    (∀ x, x ∈ selectedOf envLogo optsLogo ↔
      ((∃ f, f ∈ discoveredFiles envLogo ∧ passesInclude envLogo optsLogo f ∧
        passesExclude envLogo optsLogo f ∧
        withProjectDir envLogo.projectDir f = x) ∧
        isImageFile (lowerStr x) = true)) :=
  ⟨⟨by
      intro pat hpat f hf
      have hp : pat = "*.png" := by
        have : some "*.png" = some pat := hpat
        injection this with h2
        exact h2.symm
      subst hp
      exact (by decide :
        ∀ g, g ∈ globSync envLogo "*.png" → g ∈ discoveredFiles envLogo) f hf,
    by decide, by decide⟩,
    (c6_filters envLogo optsLogo).2 (by
      intro pat hpat f hf
      have hp : pat = "*.png" := by
        have : some "*.png" = some pat := hpat
        injection this with h2
        exact h2.symm
      subst hp
      exact (by decide :
        ∀ g, g ∈ globSync envLogo "*.png" → g ∈ discoveredFiles envLogo) f hf)⟩

/-- Witness for c8_read_only_check at a concrete project and state. -/
theorem c8_read_only_check_witness :
    (isProjectOptimized cfgIdentity envOne none [("p/a.png", [1, 2])] optsNone =
      (false, none)) ∧
    (isProjectOptimized cfgIdentity envOne (some [demoHash [1, 2]])
      [("p/a.png", [1, 2])] optsNone).2 = some [demoHash [1, 2]] ∧
    ((isProjectOptimized cfgIdentity envOne (some [demoHash [1, 2]])
      [("p/a.png", [1, 2])] optsNone).1 = true ↔
      ∀ f ∈ selectedOf envOne optsNone,
        calculateHash cfgIdentity.hashFn [("p/a.png", [1, 2])] f ∈
          [demoHash [1, 2]]) :=
  ⟨(c8_read_only_check cfgIdentity envOne [("p/a.png", [1, 2])] optsNone).1,
    ((c8_read_only_check cfgIdentity envOne [("p/a.png", [1, 2])] optsNone).2
      [demoHash [1, 2]]).1,
    ((c8_read_only_check cfgIdentity envOne [("p/a.png", [1, 2])] optsNone).2
      [demoHash [1, 2]]).2⟩
